import Mathlib

/-!
Verification of the tool-routing control loop of the agentic research
assistant (backend/graph_functions.py, backend/research_graph.py,
backend/state.py, backend/main.py).

The embedding is shallow: the mutable LangGraph state dict becomes an
explicit `ResearchState` record threaded through pure functions; the
external collaborators (the LLM, the Python set iteration order used by
`next(iter(unused_tools))`, and the three retrieval backends) become an
`Env` record of arbitrary functions; Python exceptions become
`Except`/`Option` values.  Machine-level details (Unicode casing beyond
ASCII, Python hash randomization) are modelled by the corresponding
abstract parameters.
-/

/-- Year/quarter metadata filters: `map<year, list<quarter>>`
(Python `Dict[str, List[str]]`, modelled as an association list). -/
abbrev Filters : Type := List (String × List String)

/-- The `tool_input` dict built by `run_oracle`
(`{"query": ..., "metadata_filters": ...}`); `generate_final_answer`
builds one holding only `"query"`, hence the `Option` on the filters. -/
structure ToolInput where
  query : String
  metadata_filters : Option Filters
deriving DecidableEq, Repr

/-- `AgentAction` from backend/state.py: one recorded step
(tool name, tool input, result/log text). -/
structure AgentAction where
  tool : String
  tool_input : ToolInput
  log : String
deriving DecidableEq, Repr

/-- `ResearchState` from backend/state.py, plus the `output` channel
written by `generate_final_answer` (absent = `none`). -/
structure ResearchState where
  input : String
  chat_history : List String
  intermediate_steps : List AgentAction
  metadata_filters : Filters
  mode : String
  output : Option String
deriving DecidableEq, Repr

/-- One news item of `WebSearchAgent.search_news` (graph_functions.py
accesses the keys `title`, `link`, `snippet`, `source`, `date`). -/
structure NewsItem where
  title : String
  link : String
  snippet : String
  source : String
  date : String
deriving DecidableEq, Repr

/-- Result of `WebSearchAgent.run`: either the in-band
`{"status": "error", "error": ...}` dict or the success dict with raw
news/trends results and the synthesized insights text. -/
inductive WebRun where
  | statusError (error : String)
  | success (news : List NewsItem) (trends : List NewsItem) (insights : String)
deriving DecidableEq, Repr

/-- One visualization dict produced by the Snowflake agent
(`title`, `url`, `columns` are the keys read in `snowflake_search`). -/
structure SnowViz where
  title : String
  url : String
  columns : List String
deriving DecidableEq, Repr

/-- Result dict of `generate_snowflake_insights` (`summary`,
`visualizations`; `raw_data` is never read by the graph node). -/
structure SnowResult where
  summary : String
  visualizations : List SnowViz
deriving DecidableEq, Repr

/-- External collaborators of the control loop.
`llm` is the single `ChatGoogleGenerativeAI` instance, an arbitrary
function from prompt text to response text.  `pick` models
`next(iter(unused_tools))`: Python string-set iteration order is
hash-randomized, so it is an arbitrary choice function (admissible
behaviours satisfy `PickValid`).  `ragInit` models the
`AgenticResearchAssistant()` constructor, which performs external
Pinecone client construction *outside* the node's try block and may
raise.  The three backends model `search_pinecone_db`,
`WebSearchAgent.run` and `generate_snowflake_insights`; `.error e`
means the call raised an exception with text `e`. -/
structure Env where
  llm : String → String
  pick : List String → String
  ragInit : Except String Unit
  ragBackend : String → Filters → Except String String
  webBackend : String → Except String WebRun
  snowBackend : String → Filters → Except String SnowResult

/-- Admissible models of `next(iter(s))`: it returns a member of the
(nonempty) set. -/
def PickValid (env : Env) : Prop :=
  ∀ l : List String, l ≠ [] → env.pick l ∈ l

/-- Literal-prefix matcher on character lists (also used for the
`https?://` alternatives of the web-link regex): returns the rest on
success. -/
def stripPre : List Char → List Char → Option (List Char)
  | [], cs => some cs
  | _ :: _, [] => none
  | p :: ps, c :: cs => if c = p then stripPre ps cs else none

/-- Structural substring occurrence test over character lists
(the empty pattern occurs everywhere, as in Python). -/
def listContainsSub (sub : List Char) : List Char → Bool
  | [] => sub.isEmpty
  | c :: rest => sub.isPrefixOf (c :: rest) || listContainsSub sub rest

/-- Python `sub in s` substring test. -/
def strContains (s sub : String) : Bool :=
  listContainsSub sub.data s.data

/-- Python `s.strip()`: drop whitespace from both ends. -/
def pyStrip (s : String) : String :=
  String.mk (((s.data.dropWhile Char.isWhitespace).reverse.dropWhile
    Char.isWhitespace).reverse)

/-- Python `s.lower()` (ASCII-faithful). -/
def pyLower (s : String) : String :=
  String.mk (s.data.map Char.toLower)

/-- Python `s.split(sep)` for nonempty `sep`, fuelled structurally by
the input length (the fuel never runs out on the initial call). -/
def pySplitGo (sep : List Char) : Nat → List Char → List Char → List (List Char)
  | _, [], acc => [acc.reverse]
  | 0, s, acc => [acc.reverse ++ s]
  | fuel + 1, c :: rest, acc =>
    match stripPre sep (c :: rest) with
    | some r => acc.reverse :: pySplitGo sep fuel r []
    | none => pySplitGo sep fuel rest (c :: acc)

/-- Python `s.split(sep)`. -/
def pySplit (s sep : String) : List String :=
  (pySplitGo sep.data s.data.length s.data []).map String.mk

/-- Python `p.startswith(...)`-style test used in theorem statements. -/
def strStartsWith (s p : String) : Bool :=
  p.data.isPrefixOf s.data

/-- `all_tools = {"web_search", "pinecone", "snowflake"}` (run_oracle). -/
def allTools : List String := ["web_search", "pinecone", "snowflake"]

/-- The normalization block at the end of `run_oracle`:
substring checks applied in order `"pinecone"`, `"web"`, `"snow"`,
anything else mapping to `"final_answer"`. -/
def normalizeTool (chosen : String) : String :=
  if strContains chosen "pinecone" then "pinecone"
  else if strContains chosen "web" then "web_search"
  else if strContains chosen "snow" then "snowflake"
  else "final_answer"

/-- Python `str(list_of_str)` rendering used when formatting the
second oracle prompt (`used_tools`/`unused_tools` lists). -/
def pyListStr (l : List String) : String :=
  let rec inner : List String → String
    | [] => ""
    | [x] => "'" ++ x ++ "'"
    | x :: xs => "'" ++ x ++ "', " ++ inner xs
  "[" ++ inner l ++ "]"

/-- The first-choice oracle prompt template of `run_oracle`
(combined mode, no tools used yet), with `input` interpolated. -/
def firstToolPrompt (input : String) : String :=
  "You are an intelligent assistant that decides which tool to use first to answer a user's query about NVIDIA.\n\n" ++
  "Available tools:\n" ++
  "- pinecone: Search NVIDIA quarterly reports and financial data (use for historical financial analysis, earnings, revenue, etc.)\n" ++
  "- web_search: Search recent news and web content (use for current events, market updates, new products, etc.)\n" ++
  "- snowflake: Query financial metrics and stock performance data (use for stock performance, technical indicators, price trends)\n\n" ++
  "The user's query is: " ++ input ++ "\n\n" ++
  "Consider:\n" ++
  "1. Which data source would be most relevant to start with?\n" ++
  "2. For financial history and earnings, use pinecone\n" ++
  "3. For recent events and news, use web_search\n" ++
  "4. For stock performance and metrics, use snowflake\n\n" ++
  "Reply with just one tool name: \"pinecone\", \"web_search\", or \"snowflake\"."

/-- The next-choice oracle prompt template of `run_oracle`
(combined mode, some but not all tools used). -/
def nextToolPrompt (input : String) (used unused : List String) : String :=
  "Based on the query: \"" ++ input ++ "\"\n" ++
  "And having already used these tools: " ++ pyListStr used ++ "\n" ++
  "Which of these remaining tools would be most valuable next: " ++ pyListStr unused ++ "?\n\n" ++
  "Consider:\n" ++
  "1. What information gaps still exist\n" ++
  "2. Which tool would best complement our current data\n" ++
  "3. How to build a comprehensive answer\n\n" ++
  "Reply with just one tool name from the unused tools."

/-- `used_tools = [step.tool for step in state["intermediate_steps"]]`. -/
def usedTools (s : ResearchState) : List String :=
  s.intermediate_steps.map (fun st => st.tool)

/-- `used_real_tools = {tool for tool in used_tools if tool in all_tools}`:
the set is represented canonically by filtering the literal
`all_tools` list on membership, which deduplicates. -/
def usedRealTools (s : ResearchState) : List String :=
  allTools.filter (fun t => (usedTools s).contains t)

/-- `unused_tools = all_tools - used_real_tools`, same canonical
list representation of the set. -/
def unusedTools (s : ResearchState) : List String :=
  allTools.filter (fun t => !((usedRealTools s).contains t))

/-- The stripped, lowercased response of the second oracle LLM call
(`llm.invoke(next_tool_prompt.format(...)).content.strip().lower()`). -/
def rawNextChoice (env : Env) (s : ResearchState) : String :=
  pyLower (pyStrip (env.llm (nextToolPrompt s.input (usedRealTools s) (unusedTools s))))

/-- The selection `AgentAction` appended by `run_oracle` for the
normalized chosen tool. -/
def selAction (s : ResearchState) (c : String) : AgentAction :=
  ⟨c, ⟨s.input, some s.metadata_filters⟩,
    "Selected " ++ c ++ " based on mode: " ++ s.mode⟩

/-- State after `run_oracle` appends its selection action. -/
def appendSel (s : ResearchState) (c : String) : ResearchState :=
  { s with intermediate_steps := s.intermediate_steps ++ [selAction s c] }

/-- `run_oracle` (graph_functions.py lines 15–126).  Decides the next
tool, normalizes it, and appends the selection `AgentAction`.  Returns
`none` when `chosen_tool` is never assigned (mode outside the four
recognized modes), where Python raises `NameError`. -/
def run_oracle (env : Env) (s : ResearchState) : Option ResearchState :=
  let used_tools := usedTools s
  let chosen? : Option String :=
    if s.mode = "pinecone" ∨ s.mode = "web_search" ∨ s.mode = "snowflake" then
      some (if used_tools = [] then s.mode else "final_answer")
    else if s.mode = "combined" then
      some (if used_tools = [] then
        pyLower (pyStrip (env.llm (firstToolPrompt s.input)))
      else if (usedRealTools s).length < 3 then
        let unused := unusedTools s
        let c := rawNextChoice env s
        if unused.contains c then c else env.pick unused
      else "final_answer")
    else none
  chosen?.map (fun c0 => appendSel s (normalizeTool c0))

/-- `tool_to_node` dispatch dict of `router`; `Dict.get` yields `None`
for unknown keys. -/
def tool_to_node (t : String) : Option String :=
  if t = "pinecone" then some "rag_search"
  else if t = "web_search" then some "web_search"
  else if t = "snowflake" then some "snowflake_search"
  else if t = "final_answer" then some "final_answer"
  else none

/-- `router` (graph_functions.py lines 128–158): dispatch on the most
recent action's tool; empty history defaults to `"final_answer"`;
an unrecognized tool name yields `none` (Python `None`). -/
def router (s : ResearchState) : Option String :=
  match s.intermediate_steps.getLast? with
  | some a => tool_to_node a.tool
  | none => some "final_answer"

/-- Rendering of one enumerated news item in the `web_search` node
(f-strings at graph_functions.py lines 232–234). -/
def newsItemLines (i : Nat) (item : NewsItem) : String :=
  "**" ++ toString i ++ ". [" ++ item.title ++ "](" ++ item.link ++ ")**\n" ++
  "📅 " ++ item.date ++ " | 🔗 [" ++ item.source ++ "](" ++ item.link ++ ")\n" ++
  "Summary: " ++ item.snippet ++ "\n\n"

/-- The `enumerate(..., 1)` loop over news results. -/
def newsLoop : Nat → List NewsItem → String
  | _, [] => ""
  | i, x :: xs => newsItemLines i x ++ newsLoop (i + 1) xs

/-- Rendering of one enumerated trend item in the `web_search` node
(f-strings at graph_functions.py lines 240–242). -/
def trendItemLines (i : Nat) (item : NewsItem) : String :=
  "**" ++ toString i ++ ". [" ++ item.title ++ "](" ++ item.link ++ ")**\n" ++
  "Source: [" ++ item.source ++ "](" ++ item.link ++ ")\n" ++
  "Key Points: " ++ item.snippet ++ "\n\n"

/-- The `enumerate(..., 1)` loop over trend results. -/
def trendLoop : Nat → List NewsItem → String
  | _, [] => ""
  | i, x :: xs => trendItemLines i x ++ trendLoop (i + 1) xs

/-- Success-path formatting of `web_search` (graph_functions.py lines
226–249): news section, trends section, insights section, each emitted
only when its data is non-empty (Python truthiness). -/
def formatWebSuccess (news trends : List NewsItem) (insights : String) : String :=
  "### Recent News and Analysis\n\n" ++
  (if news = [] then "" else "#### 📰 Latest News\n\n" ++ newsLoop 1 news) ++
  (if trends = [] then "" else "#### 📈 Market Trends & Analysis\n\n" ++ trendLoop 1 trends) ++
  (if insights = "" then "" else "#### 🔍 Analysis\n\n" ++ insights ++ "\n\n")

/-- One visualization block written by `snowflake_search`
(image markdown plus caption, lines 510–511). -/
def snowVizBlock (v : SnowViz) : String :=
  "![" ++ v.title ++ "](" ++ v.url ++ ")\n\n" ++
  "*" ++ v.title ++ " - " ++ String.intercalate ", " v.columns ++ "*\n\n"

/-- The visualization loop of `snowflake_search`. -/
def snowVizLoop : List SnowViz → String
  | [] => ""
  | v :: vs => snowVizBlock v ++ snowVizLoop vs

/-- Markdown assembly of the `snowflake_search` success path
(lines 494–512). -/
def formatSnowSuccess (r : SnowResult) : String :=
  "## Financial Data Analysis\n\n" ++ r.summary ++ "\n\n" ++
  (if r.visualizations = [] then ""
   else "\n## Visualizations\n\n" ++ snowVizLoop r.visualizations)

/-- `rag_search` node (lines 160–202).  Reads the last action's
`tool_input` (Python `[-1]`, `none` on empty history models the
`IndexError`); the `AgenticResearchAssistant()` constructor runs
*before* the try block, so its exception propagates (`none`); an
exception of `search_pinecone_db` is caught and becomes the
`"Error searching Pinecone: ..."` log. -/
def rag_search (env : Env) (s : ResearchState) : Option ResearchState :=
  (s.intermediate_steps.getLast?).bind (fun last =>
    let ti := last.tool_input
    match env.ragInit with
    | .error _ => none
    | .ok _ =>
      let result : String :=
        match env.ragBackend ti.query (ti.metadata_filters.getD []) with
        | .ok r => r
        | .error e => "Error searching Pinecone: " ++ e
      some { s with intermediate_steps := s.intermediate_steps ++
        [⟨"rag_search_result", ti, result⟩] })

/-- `web_search` node (lines 204–265).  `WebSearchAgent()` construction
is a plain attribute assignment and cannot raise; inside the try block
an exception becomes `"Error searching web: ..."`, the in-band error
status becomes `"Error in web search: ..."`, and the success dict is
formatted into markdown. -/
def web_search (env : Env) (s : ResearchState) : Option ResearchState :=
  (s.intermediate_steps.getLast?).map (fun last =>
    let ti := last.tool_input
    let result : String :=
      match env.webBackend ti.query with
      | .error e => "Error searching web: " ++ e
      | .ok (.statusError err) => "Error in web search: " ++ err
      | .ok (.success news trends insights) => formatWebSuccess news trends insights
    { s with intermediate_steps := s.intermediate_steps ++
      [⟨"web_search_result", ti, result⟩] })

/-- `snowflake_search` node (lines 475–539): everything fallible sits
inside the try block; an exception becomes
`"Error searching Snowflake: ..."`. -/
def snowflake_search (env : Env) (s : ResearchState) : Option ResearchState :=
  (s.intermediate_steps.getLast?).map (fun last =>
    let ti := last.tool_input
    let result : String :=
      match env.snowBackend ti.query (ti.metadata_filters.getD []) with
      | .ok r => formatSnowSuccess r
      | .error e => "Error searching Snowflake: " ++ e
    { s with intermediate_steps := s.intermediate_steps ++
      [⟨"snowflake_search_result", ti, result⟩] })

/-- Character class `[^\s\)]` of the web-link regex
`\[(.*?)\]\((https?://[^\s\)]+)\)` (graph_functions.py line 291). -/
def classChar (c : Char) : Bool :=
  !c.isWhitespace && c != ')'

/-- Greedy run of `[^\s\)]` characters: maximal class prefix and rest. -/
def takeClassRun : List Char → List Char × List Char
  | [] => ([], [])
  | c :: cs =>
    if classChar c then
      let p := takeClassRun cs
      (c :: p.1, p.2)
    else ([], c :: cs)

/-- Matcher for the tail `(https?<://[^\s\)]+>)\)` of the web-link regex
at the current position: the captured URL group and the rest after the
closing parenthesis.  `https?` is deterministic (no input matches both
alternatives) and the greedy `+` needs no backtracking because `)` is
outside the class. -/
def urlTail (cs : List Char) : Option (List Char × List Char) :=
  let cont (pre rest : List Char) : Option (List Char × List Char) :=
    let p := takeClassRun rest
    if p.1 = [] then none
    else match p.2 with
      | ')' :: rest' => some (pre ++ p.1, rest')
      | _ => none
  match stripPre "https://".data cs with
  | some r => cont "https://".data r
  | none =>
    match stripPre "http://".data cs with
    | some r => cont "http://".data r
    | none => none

/-- Lazy title matcher of the web-link regex: from the position after
`[`, the shortest title (no newline, `.` does not match `\n`) followed
by `](`, a URL and `)`.  Returns (title, url, rest after the match). -/
def linkTitle : List Char → Option (List Char × List Char × List Char)
  | ']' :: '(' :: rest =>
    (match urlTail rest with
     | some (u, r) => some ([], u, r)
     | none => (linkTitle ('(' :: rest)).map (fun x => (']' :: x.1, x.2.1, x.2.2)))
  | c :: rest =>
    if c = '\n' then none
    else (linkTitle rest).map (fun x => (c :: x.1, x.2.1, x.2.2))
  | [] => none
termination_by cs => cs.length

/-- `stripPre` succeeds exactly by splitting off the literal prefix. -/
theorem stripPre_eq_some {p cs r : List Char} (h : stripPre p cs = some r) :
    cs = p ++ r := by
  induction p generalizing cs with
  | nil => simpa [stripPre, eq_comm] using h.symm
  | cons x ps ih =>
    cases cs with
    | nil => simp [stripPre] at h
    | cons c cs' =>
      by_cases hc : c = x
      · subst hc
        simp only [stripPre, if_pos rfl] at h
        simpa using ih h
      · simp [stripPre, hc] at h

/-- `takeClassRun` splits its input. -/
theorem takeClassRun_split (cs : List Char) :
    cs = (takeClassRun cs).1 ++ (takeClassRun cs).2 := by
  induction cs with
  | nil => simp [takeClassRun]
  | cons c cs' ih =>
    by_cases hc : classChar c
    · simpa [takeClassRun, hc] using ih
    · simp [takeClassRun, hc]

/-- `urlTail` success splits the input as `url ++ ')' :: rest`. -/
theorem urlTail_eq_some {cs u r : List Char} (h : urlTail cs = some (u, r)) :
    cs = u ++ ')' :: r := by
  unfold urlTail at h
  cases hs : stripPre "https://".data cs with
  | some q =>
    rw [hs] at h
    simp only [] at h
    rcases hrun : takeClassRun q with ⟨run, rest⟩
    rw [hrun] at h
    by_cases hre : run = []
    · simp [hre] at h
    · simp only [hre, if_neg hre] at h
      cases rest with
      | nil => simp at h
      | cons x rest' =>
        by_cases hx : x = ')'
        · subst hx
          simp only [] at h
          have := stripPre_eq_some hs
          have hq := takeClassRun_split q
          rw [hrun] at hq
          obtain ⟨hu, hr⟩ := Prod.mk.injEq .. ▸ (Option.some.injEq .. ▸ h)
          subst hu hr
          simp [this, hq]
        · simp [hx] at h
  | none =>
    rw [hs] at h
    cases hs2 : stripPre "http://".data cs with
    | some q =>
      rw [hs2] at h
      simp only [] at h
      rcases hrun : takeClassRun q with ⟨run, rest⟩
      rw [hrun] at h
      by_cases hre : run = []
      · simp [hre] at h
      · simp only [hre, if_neg hre] at h
        cases rest with
        | nil => simp at h
        | cons x rest' =>
          by_cases hx : x = ')'
          · subst hx
            simp only [] at h
            have := stripPre_eq_some hs2
            have hq := takeClassRun_split q
            rw [hrun] at hq
            obtain ⟨hu, hr⟩ := Prod.mk.injEq .. ▸ (Option.some.injEq .. ▸ h)
            subst hu hr
            simp [this, hq]
          · simp [hx] at h
    | none => rw [hs2] at h; exact absurd h (by simp)

/-- Shape of a URL captured by the web-link regex: an `https?://`
prefix followed by a nonempty run of `[^\s\)]` characters. -/
def UrlOk (u : List Char) : Prop :=
  ∃ pre run, (pre = "https://".data ∨ pre = "http://".data) ∧
    u = pre ++ run ∧ run ≠ [] ∧ (∀ c ∈ run, classChar c = true)

theorem stripPre_self (p x : List Char) : stripPre p (p ++ x) = some x := by
  induction p with
  | nil => simp [stripPre]
  | cons c ps ih => simp [stripPre, ih]

theorem takeClassRun_all {a : List Char} (ha : ∀ c ∈ a, classChar c = true)
    {x : Char} (hx : classChar x = false) (y : List Char) :
    takeClassRun (a ++ x :: y) = (a, x :: y) := by
  induction a with
  | nil => simp [takeClassRun, hx]
  | cons c cs ih =>
    have hc : classChar c = true := ha c (by simp)
    have := ih (fun d hd => ha d (by simp [hd]))
    simp [takeClassRun, hc, this]

theorem takeClassRun_fst_mem : ∀ (cs : List Char) (c : Char),
    c ∈ (takeClassRun cs).1 → classChar c = true := by
  intro cs
  induction cs with
  | nil => intro c h; simp [takeClassRun] at h
  | cons x xs ih =>
    intro c h
    by_cases hx : classChar x
    · simp only [takeClassRun, hx, if_pos] at h
      rcases List.mem_cons.mp h with h | h
      · simpa [h] using hx
      · exact ih c h
    · simp [takeClassRun, hx] at h

theorem stripPre_https_colon (z : List Char) :
    stripPre "https://".data ('h' :: 't' :: 't' :: 'p' :: ':' :: z) = none := by
  simp [stripPre, show "https://".data = ['h','t','t','p','s',':','/','/'] from rfl]

/-- Completeness of `urlTail` on a well-shaped URL followed by `)`:
the capture is exactly the URL, independent of what follows. -/
theorem urlTail_complete {u : List Char} (h : UrlOk u) (ext : List Char) :
    urlTail (u ++ ')' :: ext) = some (u, ext) := by
  obtain ⟨pre, run, hpre, hu, hne, hall⟩ := h
  have hcr : takeClassRun (run ++ ')' :: ext) = (run, ')' :: ext) :=
    takeClassRun_all hall (by decide) ext
  rcases hpre with hpre | hpre
  · subst hpre hu
    unfold urlTail
    rw [List.append_assoc, stripPre_self]
    simp [hcr, hne]
  · subst hpre hu
    unfold urlTail
    have hx : stripPre "https://".data ("http://".data ++ run ++ ')' :: ext) = none := by
      have : "http://".data ++ run ++ ')' :: ext =
          'h' :: 't' :: 't' :: 'p' :: ':' :: ('/' :: '/' :: (run ++ ')' :: ext)) := by
        simp [show "http://".data = ['h','t','t','p',':','/','/'] from rfl]
      rw [this]
      exact stripPre_https_colon _
    rw [List.append_assoc] at hx ⊢
    rw [hx, stripPre_self]
    simp [hcr, hne]

/-- Soundness of `urlTail`: a successful match splits the input as
`url ++ ')' :: rest` with a well-shaped URL. -/
theorem urlTail_parts {cs u r : List Char} (h : urlTail cs = some (u, r)) :
    cs = u ++ ')' :: r ∧ UrlOk u := by
  refine ⟨urlTail_eq_some h, ?_⟩
  unfold urlTail at h
  cases hs : stripPre "https://".data cs with
  | some q =>
    rw [hs] at h
    simp only [] at h
    rcases hrun : takeClassRun q with ⟨run, rest⟩
    rw [hrun] at h
    by_cases hre : run = []
    · simp [hre] at h
    · simp only [hre, if_neg hre] at h
      cases rest with
      | nil => simp at h
      | cons x rest' =>
        by_cases hx : x = ')'
        · subst hx
          obtain ⟨hu, _⟩ := Prod.mk.injEq .. ▸ (Option.some.injEq .. ▸ h)
          exact ⟨"https://".data, run, Or.inl rfl, hu.symm, hre,
            fun c hc => takeClassRun_fst_mem q c (by simp [hrun, hc])⟩
        · simp [hx] at h
  | none =>
    rw [hs] at h
    cases hs2 : stripPre "http://".data cs with
    | some q =>
      rw [hs2] at h
      simp only [] at h
      rcases hrun : takeClassRun q with ⟨run, rest⟩
      rw [hrun] at h
      by_cases hre : run = []
      · simp [hre] at h
      · simp only [hre, if_neg hre] at h
        cases rest with
        | nil => simp at h
        | cons x rest' =>
          by_cases hx : x = ')'
          · subst hx
            obtain ⟨hu, _⟩ := Prod.mk.injEq .. ▸ (Option.some.injEq .. ▸ h)
            exact ⟨"http://".data, run, Or.inr rfl, hu.symm, hre,
              fun c hc => takeClassRun_fst_mem q c (by simp [hrun, hc])⟩
          · simp [hx] at h
    | none => rw [hs2] at h; exact absurd h (by simp)

/-- A well-shaped URL contains no `)`. -/
theorem UrlOk.not_mem_paren {u : List Char} (h : UrlOk u) : ')' ∉ u := by
  obtain ⟨pre, run, hpre, hu, _, hall⟩ := h
  subst hu
  intro hmem
  rcases List.mem_append.mp hmem with hmem | hmem
  · rcases hpre with h | h <;> (subst h; revert hmem; decide)
  · have := hall _ hmem
    simp [classChar] at this

/-- Match extension: a successful `urlTail` match is preserved under
appending a suffix (the match never looks past its closing `)`). -/
theorem urlTail_append_some {cs u r : List Char} (h : urlTail cs = some (u, r))
    (e : List Char) : urlTail (cs ++ e) = some (u, r ++ e) := by
  obtain ⟨hcs, hok⟩ := urlTail_parts h
  subst hcs
  rw [List.append_assoc]
  simpa using urlTail_complete hok (r ++ e)

/-- Failure stability: when the input already contains a `)`, a failed
`urlTail` match stays failed under appending a suffix. -/
theorem urlTail_append_none {cs : List Char} (hmem : ')' ∈ cs)
    (h : urlTail cs = none) (e : List Char) : urlTail (cs ++ e) = none := by
  cases hsome : urlTail (cs ++ e) with
  | none => rfl
  | some p =>
    exfalso
    rcases p with ⟨u, r⟩
    obtain ⟨hsplit, hok⟩ := urlTail_parts hsome
    have hcs : cs <+: cs ++ e := List.prefix_append cs e
    by_cases hlt : u.length + 1 ≤ cs.length
    · have h2 : (u ++ [')']) <+: cs ++ e := ⟨r, by simp [hsplit]⟩
      have hpref : (u ++ [')']) <+: cs :=
        List.prefix_of_prefix_length_le h2 hcs (by simpa using hlt)
      obtain ⟨t, ht⟩ := hpref
      have : urlTail cs = some (u, t) := by
        rw [← ht, List.append_assoc]
        simpa using urlTail_complete hok t
      rw [this] at h
      exact Option.noConfusion h
    · push_neg at hlt
      have h2 : u <+: cs ++ e := ⟨')' :: r, by simp [hsplit]⟩
      have hpref : cs <+: u :=
        List.prefix_of_prefix_length_le hcs h2 (by omega)
      exact hok.not_mem_paren (hpref.subset hmem)

/-- Laziness certificate for a captured link title: at no earlier
split of the title could the regex already have completed a match
(canonical form, cut off at the closing parenthesis). -/
def EarlyFail (t u : List Char) : Prop :=
  ∀ a b, t = a ++ ']' :: '(' :: b →
    urlTail (b ++ ']' :: '(' :: (u ++ [')'])) = none

theorem EarlyFail.nil (u : List Char) : EarlyFail [] u := by
  intro a b hab
  exact absurd hab.symm (by simp)

theorem EarlyFail.cons {c : Char} {t u : List Char} (h : EarlyFail t u)
    (h0 : ∀ b, c :: t = ']' :: '(' :: b →
      urlTail (b ++ ']' :: '(' :: (u ++ [')'])) = none) :
    EarlyFail (c :: t) u := by
  intro a b hab
  cases a with
  | nil => exact h0 b (by simpa using hab)
  | cons x a' =>
    have ht : t = a' ++ ']' :: '(' :: b := by
      have := congrArg List.tail hab
      simpa using this
    exact h a' b ht

theorem EarlyFail.of_cons {c : Char} {t u : List Char}
    (h : EarlyFail (c :: t) u) : EarlyFail t u := by
  intro a b hab
  exact h (c :: a) b (by simp [hab])

/-- The canonical early-fail string always contains a `)`. -/
theorem paren_mem_canon (b u : List Char) :
    ')' ∈ b ++ ']' :: '(' :: (u ++ [')']) := by
  simp

/-- Soundness of the lazy title matcher: a match splits the input,
the title contains no newline, the URL is well-shaped, and no earlier
title split admits a match. -/
theorem linkTitle_sound : ∀ (cs t u r : List Char),
    linkTitle cs = some (t, u, r) →
    cs = t ++ ']' :: '(' :: (u ++ ')' :: r) ∧ ('\n' ∉ t) ∧ UrlOk u ∧
      EarlyFail t u := by
  intro cs
  induction cs using linkTitle.induct with
  | case1 rest u0 r0 hurl =>
    intro t u r h
    rw [linkTitle] at h
    rw [hurl] at h
    simp only [Option.some.injEq, Prod.mk.injEq] at h
    obtain ⟨rfl, rfl, rfl⟩ := h
    obtain ⟨hsplit, hok⟩ := urlTail_parts hurl
    exact ⟨by simp [hsplit], by simp, hok, EarlyFail.nil u0⟩
  | case2 rest hurl ih =>
    intro t u r h
    rw [linkTitle] at h
    rw [hurl] at h
    cases hrec : linkTitle ('(' :: rest) with
    | none => rw [hrec] at h; exact absurd h (by simp)
    | some x =>
      rw [hrec] at h
      rcases x with ⟨t1, u1, r1⟩
      simp only [Option.map_some', Option.some.injEq, Prod.mk.injEq] at h
      obtain ⟨ht, hu, hr⟩ := h
      obtain ⟨hsplit, hnl, hok, hef⟩ := ih t1 u1 r1 hrec
      subst ht hu hr
      cases t1 with
      | nil => exact absurd (congrArg List.head? hsplit) (by simp)
      | cons d t2 =>
        have hd : d = '(' := by
          have := congrArg List.head? hsplit
          simpa using this.symm
        subst hd
        have hrest : rest = t2 ++ ']' :: '(' :: (u1 ++ ')' :: r1) := by
          have := congrArg List.tail hsplit
          simpa using this
        refine ⟨by simp [hrest], by simpa using hnl, hok, ?_⟩
        have hcanonfail : urlTail (t2 ++ ']' :: '(' :: (u1 ++ [')'])) = none := by
          cases hcanon : urlTail (t2 ++ ']' :: '(' :: (u1 ++ [')'])) with
          | none => rfl
          | some p =>
            exfalso
            rcases p with ⟨v, w⟩
            have hx := urlTail_append_some hcanon r1
            rw [show (t2 ++ ']' :: '(' :: (u1 ++ [')'])) ++ r1 =
                  t2 ++ ']' :: '(' :: (u1 ++ ')' :: r1) by simp] at hx
            rw [← hrest] at hx
            rw [hx] at hurl
            exact Option.noConfusion hurl
        refine hef.cons ?_
        intro b hb
        have hb2 : b = t2 := by
          have := congrArg List.tail (congrArg List.tail hb)
          simpa using this.symm
        rw [hb2]
        exact hcanonfail
  | case3 rest hshape =>
    intro t u r h
    rw [linkTitle] at h
    · simp at h
    · exact hshape
  | case4 c rest hshape hc ih =>
    intro t u r h
    rw [linkTitle] at h
    · rw [if_neg hc] at h
      cases hrec : linkTitle rest with
      | none => rw [hrec] at h; exact absurd h (by simp)
      | some x =>
        rw [hrec] at h
        rcases x with ⟨t1, u1, r1⟩
        simp only [Option.map_some', Option.some.injEq, Prod.mk.injEq] at h
        obtain ⟨ht, hu, hr⟩ := h
        obtain ⟨hsplit, hnl, hok, hef⟩ := ih t1 u1 r1 hrec
        subst ht hu hr
        refine ⟨by simp [hsplit], ?_, hok, ?_⟩
        · intro hmem
          rcases List.mem_cons.mp hmem with hmem | hmem
          · exact hc hmem.symm
          · exact hnl hmem
        · refine hef.cons ?_
          intro b hb
          exfalso
          have hc2 : c = ']' := by
            have := congrArg List.head? hb
            simpa using this
          have ht2 : t1 = '(' :: b := by
            have := congrArg List.tail hb
            simpa using this
          -- then rest = t1 ++ … starts with '(' and c = ']',
          -- contradicting the shape hypothesis of this branch
          exact hshape (b ++ ']' :: '(' :: (u1 ++ ')' :: r1)) hc2
            (by rw [hsplit, ht2]; simp)
    · exact hshape
  | case5 =>
    intro t u r h
    rw [linkTitle] at h
    exact absurd h (by simp)

/-- Completeness of the lazy title matcher: a certified
(title, url) pair is recovered exactly, whatever follows the
closing parenthesis. -/
theorem linkTitle_complete : ∀ (t : List Char) {u : List Char}, '\n' ∉ t →
    UrlOk u → EarlyFail t u → ∀ (ext : List Char),
    linkTitle (t ++ ']' :: '(' :: (u ++ ')' :: ext)) = some (t, u, ext) := by
  intro t
  induction t with
  | nil =>
    intro u _ hok _ ext
    show linkTitle (']' :: '(' :: (u ++ ')' :: ext)) = _
    rw [linkTitle, urlTail_complete hok ext]
  | cons c t' ih =>
    intro u hn hok hef ext
    have hn' : '\n' ∉ t' := fun hm => hn (List.mem_cons_of_mem _ hm)
    have hef' : EarlyFail t' u := hef.of_cons
    have hmain := ih hn' hok hef' ext
    by_cases hc : c = ']'
    · subst hc
      cases t' with
      | nil =>
        show linkTitle (']' :: ']' :: '(' :: (u ++ ')' :: ext)) = _
        rw [linkTitle]
        · rw [if_neg (by decide)]
          have : linkTitle (']' :: '(' :: (u ++ ')' :: ext)) = some ([], u, ext) := by
            simpa using hmain
          rw [this]
          simp
        · intro r1 _ hr
          exact absurd (congrArg List.head? hr) (by simp)
      | cons d t'' =>
        by_cases hd : d = '('
        · subst hd
          show linkTitle (']' :: '(' :: (t'' ++ ']' :: '(' :: (u ++ ')' :: ext))) = _
          rw [linkTitle]
          have hcanon : urlTail (t'' ++ ']' :: '(' :: (u ++ [')'])) = none :=
            hef [] t'' (by simp)
          have hfail : urlTail (t'' ++ ']' :: '(' :: (u ++ ')' :: ext)) = none := by
            have := urlTail_append_none (paren_mem_canon t'' u) hcanon ext
            simpa using this
          rw [hfail]
          have : linkTitle ('(' :: (t'' ++ ']' :: '(' :: (u ++ ')' :: ext))) =
              some ('(' :: t'', u, ext) := by
            simpa using hmain
          rw [this]
          simp
        · show linkTitle (']' :: ((d :: t'') ++ ']' :: '(' :: (u ++ ')' :: ext))) = _
          rw [linkTitle]
          · rw [if_neg (by decide)]
            rw [hmain]
            simp
          · intro r1 _ hr
            exact absurd (congrArg List.head? hr) (by simp [hd])
    · have hcn : ¬ c = '\n' := fun h0 => hn (by simp [h0])
      show linkTitle (c :: (t' ++ ']' :: '(' :: (u ++ ')' :: ext))) = _
      rw [linkTitle]
      · rw [if_neg hcn, hmain]
        simp
      · intro r1 hceq _
        exact hc hceq

/-- The rest of a successful title match is strictly shorter than the
input (the match consumes at least `](u)`). -/
theorem linkTitle_rest_length {cs t u r : List Char}
    (h : linkTitle cs = some (t, u, r)) : r.length < cs.length := by
  have hsplit := (linkTitle_sound cs t u r h).1
  rw [hsplit]
  simp only [List.length_append, List.length_cons]
  omega

/-- The `re.findall` scan for the web-link pattern
`\[(.*?)\]\((https?://[^\s\)]+)\)`: left-to-right, non-overlapping,
resuming after each match. -/
def scanLinks : List Char → List (List Char × List Char)
  | [] => []
  | '[' :: rest =>
    (match h : linkTitle rest with
     | some (t1, u1, r1) => (t1, u1) :: scanLinks r1
     | none => scanLinks rest)
  | _ :: rest => scanLinks rest
termination_by cs => cs.length
decreasing_by
  · have := linkTitle_rest_length h
    simp only [List.length_cons]
    omega
  · simp
  · simp

/-- Lazy caption matcher for the visualization regex: shortest prefix
before a literal `*`; `.` does not cross newlines. -/
def vizCaption : List Char → Option (List Char × List Char)
  | '*' :: rest => some ([], rest)
  | c :: rest =>
    if c = '\n' then none
    else (vizCaption rest).map (fun x => (c :: x.1, x.2))
  | [] => none

/-- Lazy URL matcher for the visualization regex: shortest prefix
before the literal `)\n\n*`, then the caption.  A candidate stop whose
caption fails cannot be recovered by extending the URL, because the
URL cannot cross the newline. -/
def vizUrl : List Char → Option (List Char × List Char × List Char)
  | ')' :: '\n' :: '\n' :: '*' :: rest =>
    (match vizCaption rest with
     | some (cap, r) => some ([], cap, r)
     | none => (vizUrl ('\n' :: '\n' :: '*' :: rest)).map
         (fun x => (')' :: x.1, x.2.1, x.2.2)))
  | c :: rest =>
    if c = '\n' then none
    else (vizUrl rest).map (fun x => (c :: x.1, x.2.1, x.2.2))
  | [] => none
termination_by cs => cs.length

/-- Lazy title matcher for the visualization regex (after `![`). -/
def vizTitle : List Char → Option (List Char × List Char × List Char × List Char)
  | ']' :: '(' :: rest =>
    (match vizUrl rest with
     | some (u, cap, r) => some ([], u, cap, r)
     | none => (vizTitle ('(' :: rest)).map
         (fun x => (']' :: x.1, x.2.1, x.2.2.1, x.2.2.2)))
  | c :: rest =>
    if c = '\n' then none
    else (vizTitle rest).map (fun x => (c :: x.1, x.2.1, x.2.2.1, x.2.2.2))
  | [] => none
termination_by cs => cs.length

/-- Absence of a `](` pair inside a captured visualization title —
the laziness certificate for that pattern. -/
def NoBrkt (t : List Char) : Prop :=
  ∀ a b, t ≠ a ++ ']' :: '(' :: b

theorem noBrkt_nil : NoBrkt [] := by
  intro a b hab
  exact absurd hab.symm (by simp)

theorem noBrkt_of_cons {c : Char} {t : List Char} (h : NoBrkt (c :: t)) :
    NoBrkt t := by
  intro a b hab
  exact h (c :: a) b (by simp [hab])

theorem noBrkt_cons {c : Char} {t : List Char} (h : NoBrkt t)
    (h0 : ∀ b, c :: t ≠ ']' :: '(' :: b) : NoBrkt (c :: t) := by
  intro a b hab
  cases a with
  | nil => exact h0 b (by simpa using hab)
  | cons x a' =>
    have ht : t = a' ++ ']' :: '(' :: b := by
      have := congrArg List.tail hab
      simpa using this
    exact h a' b ht

theorem vizCaption_sound : ∀ (cs c r : List Char),
    vizCaption cs = some (c, r) →
    cs = c ++ '*' :: r ∧ '\n' ∉ c ∧ '*' ∉ c := by
  intro cs
  induction cs using vizCaption.induct with
  | case1 rest =>
    intro c r h
    rw [vizCaption] at h
    simp only [Option.some.injEq, Prod.mk.injEq] at h
    obtain ⟨rfl, rfl⟩ := h
    exact ⟨by simp, by simp, by simp⟩
  | case2 rest hshape =>
    intro c r h
    rw [vizCaption] at h
    · simp at h
    · exact hshape
  | case3 x rest hshape hx ih =>
    intro c r h
    rw [vizCaption] at h
    · rw [if_neg hx] at h
      cases hrec : vizCaption rest with
      | none => rw [hrec] at h; exact absurd h (by simp)
      | some p =>
        rw [hrec] at h
        rcases p with ⟨c1, r1⟩
        simp only [Option.map_some', Option.some.injEq, Prod.mk.injEq] at h
        obtain ⟨rfl, rfl⟩ := h
        obtain ⟨hsplit, hnl, hst⟩ := ih c1 r1 hrec
        refine ⟨by simp [hsplit], ?_, ?_⟩
        · intro hmem
          rcases List.mem_cons.mp hmem with hmem | hmem
          · exact hx hmem.symm
          · exact hnl hmem
        · intro hmem
          rcases List.mem_cons.mp hmem with hmem | hmem
          · exact hshape hmem.symm
          · exact hst hmem
    · exact hshape
  | case4 =>
    intro c r h
    rw [vizCaption] at h
    exact absurd h (by simp)

theorem vizCaption_complete : ∀ (c : List Char), '\n' ∉ c → '*' ∉ c →
    ∀ (r : List Char), vizCaption (c ++ '*' :: r) = some (c, r) := by
  intro c
  induction c with
  | nil =>
    intro _ _ r
    show vizCaption ('*' :: r) = _
    rw [vizCaption]
  | cons x c' ih =>
    intro hnl hst r
    have hx1 : ¬ x = '\n' := fun h0 => hnl (by simp [h0])
    have hx2 : ¬ x = '*' := fun h0 => hst (by simp [h0])
    show vizCaption (x :: (c' ++ '*' :: r)) = _
    rw [vizCaption]
    · rw [if_neg hx1,
        ih (fun hm => hnl (List.mem_cons_of_mem _ hm))
           (fun hm => hst (List.mem_cons_of_mem _ hm)) r]
      simp
    · intro hxeq
      exact hx2 hxeq

theorem vizUrl_newline (rest : List Char) : vizUrl ('\n' :: rest) = none := by
  rw [vizUrl]
  · simp
  · intro r1 hx _
    exact absurd hx (by decide)

theorem vizUrl_sound : ∀ (cs u cap r : List Char),
    vizUrl cs = some (u, cap, r) →
    cs = u ++ ')' :: '\n' :: '\n' :: '*' :: (cap ++ '*' :: r) ∧
      '\n' ∉ u ∧ '\n' ∉ cap ∧ '*' ∉ cap := by
  intro cs
  induction cs using vizUrl.induct with
  | case1 rest cap0 r0 hcap =>
    intro u cap r h
    rw [vizUrl] at h
    rw [hcap] at h
    simp only [Option.some.injEq, Prod.mk.injEq] at h
    obtain ⟨rfl, rfl, rfl⟩ := h
    obtain ⟨hsplit, hnl, hst⟩ := vizCaption_sound rest cap0 r0 hcap
    exact ⟨by simp [hsplit], by simp, hnl, hst⟩
  | case2 rest hcap ih =>
    intro u cap r h
    rw [vizUrl] at h
    rw [hcap] at h
    rw [vizUrl_newline] at h
    exact absurd h (by simp)
  | case3 rest hshape =>
    intro u cap r h
    rw [vizUrl_newline] at h
    exact absurd h (by simp)
  | case4 c rest hshape hc ih =>
    intro u cap r h
    rw [vizUrl] at h
    · rw [if_neg hc] at h
      cases hrec : vizUrl rest with
      | none => rw [hrec] at h; exact absurd h (by simp)
      | some x =>
        rw [hrec] at h
        rcases x with ⟨u1, cap1, r1⟩
        simp only [Option.map_some', Option.some.injEq, Prod.mk.injEq] at h
        obtain ⟨rfl, rfl, rfl⟩ := h
        obtain ⟨hsplit, hnl, hnc, hsc⟩ := ih u1 cap1 r1 hrec
        refine ⟨by simp [hsplit], ?_, hnc, hsc⟩
        intro hmem
        rcases List.mem_cons.mp hmem with hmem | hmem
        · exact hc hmem.symm
        · exact hnl hmem
    · exact hshape
  | case5 =>
    intro u cap r h
    rw [vizUrl] at h
    exact absurd h (by simp)

theorem vizUrl_complete : ∀ (w : List Char), '\n' ∉ w →
    ∀ {cap : List Char}, '\n' ∉ cap → '*' ∉ cap → ∀ (r : List Char),
    vizUrl (w ++ ')' :: '\n' :: '\n' :: '*' :: (cap ++ '*' :: r)) =
      some (w, cap, r) := by
  intro w
  induction w with
  | nil =>
    intro _ cap hnc hsc r
    show vizUrl (')' :: '\n' :: '\n' :: '*' :: (cap ++ '*' :: r)) = _
    rw [vizUrl, vizCaption_complete cap hnc hsc r]
  | cons x w' ih =>
    intro hnw cap hnc hsc r
    have hx : ¬ x = '\n' := fun h0 => hnw (by simp [h0])
    show vizUrl (x :: (w' ++ ')' :: '\n' :: '\n' :: '*' :: (cap ++ '*' :: r))) = _
    rw [vizUrl]
    · rw [if_neg hx, ih (fun hm => hnw (List.mem_cons_of_mem _ hm)) hnc hsc r]
      simp
    · intro r1 _ heq
      cases w' with
      | nil => exact absurd (congrArg List.head? heq) (by simp)
      | cons y w'' =>
        have hy : y = '\n' := by
          have := congrArg List.head? heq
          simpa using this
        exact hnw (by simp [hy])

theorem vizTitle_sound : ∀ (cs t u cap r : List Char),
    vizTitle cs = some (t, u, cap, r) →
    cs = t ++ ']' :: '(' :: (u ++ ')' :: '\n' :: '\n' :: '*' :: (cap ++ '*' :: r)) ∧
      '\n' ∉ t ∧ NoBrkt t ∧ '\n' ∉ u ∧ '\n' ∉ cap ∧ '*' ∉ cap := by
  intro cs
  induction cs using vizTitle.induct with
  | case1 rest u0 cap0 r0 hurl =>
    intro t u cap r h
    rw [vizTitle] at h
    rw [hurl] at h
    simp only [Option.some.injEq, Prod.mk.injEq] at h
    obtain ⟨rfl, rfl, rfl, rfl⟩ := h
    obtain ⟨hsplit, hnu, hnc, hsc⟩ := vizUrl_sound rest u0 cap0 r0 hurl
    exact ⟨by simp [hsplit], by simp, noBrkt_nil, hnu, hnc, hsc⟩
  | case2 rest hurl ih =>
    intro t u cap r h
    rw [vizTitle] at h
    rw [hurl] at h
    cases hrec : vizTitle ('(' :: rest) with
    | none => rw [hrec] at h; exact absurd h (by simp)
    | some x =>
      exfalso
      rcases x with ⟨t1, u1, cap1, r1⟩
      obtain ⟨hsplit, hnt, _, hnu, hnc, hsc⟩ := ih t1 u1 cap1 r1 hrec
      cases t1 with
      | nil => exact absurd (congrArg List.head? hsplit) (by simp)
      | cons d t2 =>
        have hd : d = '(' := by
          have := congrArg List.head? hsplit
          simpa using this.symm
        subst hd
        have hrest : rest = t2 ++ ']' :: '(' ::
            (u1 ++ ')' :: '\n' :: '\n' :: '*' :: (cap1 ++ '*' :: r1)) := by
          have := congrArg List.tail hsplit
          simpa using this
        have hw : '\n' ∉ t2 ++ ']' :: '(' :: u1 := by
          intro hmem
          rcases List.mem_append.mp hmem with hmem | hmem
          · exact hnt (by simp [hmem])
          · rcases List.mem_cons.mp hmem with hmem | hmem
            · exact absurd hmem (by decide)
            · rcases List.mem_cons.mp hmem with hmem | hmem
              · exact absurd hmem (by decide)
              · exact hnu hmem
        have hsome := vizUrl_complete (t2 ++ ']' :: '(' :: u1) hw hnc hsc r1
        rw [show (t2 ++ ']' :: '(' :: u1) ++ ')' :: '\n' :: '\n' :: '*' ::
              (cap1 ++ '*' :: r1) =
            t2 ++ ']' :: '(' ::
              (u1 ++ ')' :: '\n' :: '\n' :: '*' :: (cap1 ++ '*' :: r1)) by simp] at hsome
        rw [← hrest] at hsome
        rw [hsome] at hurl
        exact Option.noConfusion hurl
  | case3 rest hshape =>
    intro t u cap r h
    rw [vizTitle] at h
    · simp at h
    · exact hshape
  | case4 c rest hshape hc ih =>
    intro t u cap r h
    rw [vizTitle] at h
    · rw [if_neg hc] at h
      cases hrec : vizTitle rest with
      | none => rw [hrec] at h; exact absurd h (by simp)
      | some x =>
        rw [hrec] at h
        rcases x with ⟨t1, u1, cap1, r1⟩
        simp only [Option.map_some', Option.some.injEq, Prod.mk.injEq] at h
        obtain ⟨rfl, rfl, rfl, rfl⟩ := h
        obtain ⟨hsplit, hnt, hbr, hnu, hnc, hsc⟩ := ih t1 u1 cap1 r1 hrec
        refine ⟨by simp [hsplit], ?_, ?_, hnu, hnc, hsc⟩
        · intro hmem
          rcases List.mem_cons.mp hmem with hmem | hmem
          · exact hc hmem.symm
          · exact hnt hmem
        · refine noBrkt_cons hbr ?_
          intro b hb
          have hc2 : c = ']' := by
            have := congrArg List.head? hb
            simpa using this
          have ht2 : t1 = '(' :: b := by
            have := congrArg List.tail hb
            simpa using this
          exact hshape (b ++ ']' :: '(' ::
              (u1 ++ ')' :: '\n' :: '\n' :: '*' :: (cap1 ++ '*' :: r1))) hc2
            (by rw [hsplit, ht2]; simp)
    · exact hshape
  | case5 =>
    intro t u cap r h
    rw [vizTitle] at h
    exact absurd h (by simp)

theorem vizTitle_complete : ∀ (t : List Char), '\n' ∉ t → NoBrkt t →
    ∀ {u cap : List Char}, '\n' ∉ u → '\n' ∉ cap → '*' ∉ cap →
    ∀ (r : List Char),
    vizTitle (t ++ ']' :: '(' ::
        (u ++ ')' :: '\n' :: '\n' :: '*' :: (cap ++ '*' :: r))) =
      some (t, u, cap, r) := by
  intro t
  induction t with
  | nil =>
    intro _ _ u cap hnu hnc hsc r
    show vizTitle (']' :: '(' ::
        (u ++ ')' :: '\n' :: '\n' :: '*' :: (cap ++ '*' :: r))) = _
    rw [vizTitle, vizUrl_complete u hnu hnc hsc r]
  | cons c t' ih =>
    intro hn hbr u cap hnu hnc hsc r
    have hn' : '\n' ∉ t' := fun hm => hn (List.mem_cons_of_mem _ hm)
    have hbr' : NoBrkt t' := noBrkt_of_cons hbr
    have hmain := ih hn' hbr' hnu hnc hsc r
    by_cases hc : c = ']'
    · subst hc
      cases t' with
      | nil =>
        show vizTitle (']' :: ']' :: '(' ::
            (u ++ ')' :: '\n' :: '\n' :: '*' :: (cap ++ '*' :: r))) = _
        rw [vizTitle]
        · rw [if_neg (by decide)]
          have : vizTitle (']' :: '(' ::
              (u ++ ')' :: '\n' :: '\n' :: '*' :: (cap ++ '*' :: r))) =
              some ([], u, cap, r) := by simpa using hmain
          rw [this]
          simp
        · intro r1 _ hr
          exact absurd (congrArg List.head? hr) (by simp)
      | cons d t'' =>
        by_cases hd : d = '('
        · subst hd
          exact absurd rfl (hbr [] t'')
        · show vizTitle (']' :: ((d :: t'') ++ ']' :: '(' ::
              (u ++ ')' :: '\n' :: '\n' :: '*' :: (cap ++ '*' :: r)))) = _
          rw [vizTitle]
          · rw [if_neg (by decide)]
            rw [hmain]
            simp
          · intro r1 _ hr
            exact absurd (congrArg List.head? hr) (by simp [hd])
    · have hcn : ¬ c = '\n' := fun h0 => hn (by simp [h0])
      show vizTitle (c :: (t' ++ ']' :: '(' ::
          (u ++ ')' :: '\n' :: '\n' :: '*' :: (cap ++ '*' :: r)))) = _
      rw [vizTitle]
      · rw [if_neg hcn, hmain]
        simp
      · intro r1 hceq _
        exact hc hceq

theorem vizTitle_rest_length {cs t u cap r : List Char}
    (h : vizTitle cs = some (t, u, cap, r)) : r.length < cs.length := by
  have hsplit := (vizTitle_sound cs t u cap r h).1
  rw [hsplit]
  simp only [List.length_append, List.length_cons]
  omega

/-- The `re.findall` scan for the visualization pattern
`!\[(.*?)\]\((.*?)\)\n\n\*(.*?)\*` (graph_functions.py line 305). -/
def scanViz : List Char → List (List Char × List Char × List Char)
  | [] => []
  | '!' :: '[' :: rest =>
    (match h : vizTitle rest with
     | some (t1, u1, cap1, r1) => (t1, u1, cap1) :: scanViz r1
     | none => scanViz ('[' :: rest))
  | _ :: rest => scanViz rest
termination_by cs => cs.length
decreasing_by
  · have := vizTitle_rest_length h
    simp only [List.length_cons]
    omega
  · simp
  · simp

/-- Certificate carried by each pair the link scan produces. -/
def GoodLink (p : List Char × List Char) : Prop :=
  '\n' ∉ p.1 ∧ UrlOk p.2 ∧ EarlyFail p.1 p.2

theorem scanLinks_sound : ∀ (cs : List Char) (p : List Char × List Char),
    p ∈ scanLinks cs → GoodLink p := by
  intro cs
  induction cs using scanLinks.induct with
  | case1 =>
    intro p hp
    rw [scanLinks] at hp
    simp at hp
  | case2 rest t1 u1 r1 h ih =>
    intro p hp
    rw [scanLinks] at hp
    rw [h] at hp
    rcases List.mem_cons.mp hp with hp | hp
    · obtain ⟨_, hnl, hok, hef⟩ := linkTitle_sound rest t1 u1 r1 h
      rw [hp]
      exact ⟨hnl, hok, hef⟩
    · exact ih p hp
  | case3 rest h ih =>
    intro p hp
    rw [scanLinks] at hp
    rw [h] at hp
    exact ih p hp
  | case4 c rest hshape ih =>
    intro p hp
    rw [scanLinks] at hp
    · exact ih p hp
    · exact hshape

theorem scanLinks_skip : ∀ (pre : List Char), (∀ c ∈ pre, c ≠ '[') →
    ∀ (cs : List Char), scanLinks (pre ++ cs) = scanLinks cs := by
  intro pre
  induction pre with
  | nil => intro _ cs; simp
  | cons c pre' ih =>
    intro hp cs
    have hc : c ≠ '[' := hp c (by simp)
    show scanLinks (c :: (pre' ++ cs)) = _
    rw [scanLinks]
    · exact ih (fun d hd => hp d (by simp [hd])) cs
    · intro h0
      exact hc h0

/-- One extracted web link dict (`{"title": ..., "url": ...}`). -/
structure WebLink where
  title : String
  url : String
deriving DecidableEq, Repr

/-- One extracted visualization dict
(`{"title": ..., "url": ..., "caption": ...}`). -/
structure VizRef where
  title : String
  url : String
  caption : String
deriving DecidableEq, Repr

/-- `re.findall(r'\[(.*?)\]\((https?://[^\s\)]+)\)', text)`. -/
def linkFindAll (s : String) : List (String × String) :=
  (scanLinks s.data).map (fun p => (String.mk p.1, String.mk p.2))

/-- `re.findall(r'!\[(.*?)\]\((.*?)\)\n\n\*(.*?)\*', text)`. -/
def vizFindAll (s : String) : List (String × String × String) :=
  (scanViz s.data).map (fun x => (String.mk x.1, String.mk x.2.1, String.mk x.2.2))

/-- The web-link extraction of `generate_final_answer`
(lines 291–295), as a list of link dicts. -/
def extractWebLinks (s : String) : List WebLink :=
  (linkFindAll s).map (fun p => ⟨p.1, p.2⟩)

/-- The visualization extraction of `generate_final_answer`
(lines 305–310), as a list of visualization dicts. -/
def extractVizRefs (s : String) : List VizRef :=
  (vizFindAll s).map (fun x => ⟨x.1, x.2.1, x.2.2⟩)

/-- Accumulator of the result-scanning loop at the top of
`generate_final_answer` (lines 276–312). -/
structure ScanAcc where
  rag : String
  web : String
  snow : String
  links : List WebLink
  vizs : List VizRef
deriving DecidableEq, Repr

/-- One iteration of the scanning loop: dispatch on `step.tool`;
the text slots are overwritten on every match, the link and
visualization lists are extended; a Snowflake result containing the
`"## Visualizations"` sentinel is split on it, piece 1 (between the
first and second occurrence) feeding the extraction and piece 0
replacing the stored text. -/
def scanStep (acc : ScanAcc) (step : AgentAction) : ScanAcc :=
  if step.tool = "rag_search_result" then
    { acc with rag := step.log }
  else if step.tool = "web_search_result" then
    { acc with web := step.log,
               links := acc.links ++ extractWebLinks step.log }
  else if step.tool = "snowflake_search_result" then
    if strContains step.log "## Visualizations" then
      let parts := pySplit step.log "## Visualizations"
      { acc with snow := parts.headD "",
                 vizs := acc.vizs ++ extractVizRefs (parts.getD 1 "") }
    else { acc with snow := step.log }
  else acc

/-- The whole scanning loop over `state["intermediate_steps"]`. -/
def scanSteps (steps : List AgentAction) : ScanAcc :=
  steps.foldl scanStep ⟨"", "", "", [], []⟩

/-- Final-answer prompt, `mode == "snowflake"` (lines 319–332). -/
def snowflakePrompt (query snow : String) : String :=
  "You are an AI assistant specializing in NVIDIA financial metrics analysis.\n\n" ++
  "Based on the following financial data, provide a comprehensive answer to:\n\n" ++
  "QUERY: " ++ query ++ "\n\n" ++
  "FINANCIAL METRICS ANALYSIS:\n" ++ snow ++ "\n\n" ++
  "Format your response with clear sections and bullet points where appropriate.\n" ++
  "Focus on the financial metrics and trends.\n" ++
  "DO NOT try to describe any visualizations - they will be added separately.\n"

/-- Final-answer prompt, `mode == "web_search"` (lines 334–352). -/
def webSearchPrompt (query web : String) : String :=
  "You are an AI assistant specializing in NVIDIA market analysis.\n\n" ++
  "Based on the following recent news and market information about NVIDIA, provide a comprehensive answer to:\n\n" ++
  "QUERY: " ++ query ++ "\n\n" ++
  "RECENT NEWS AND MARKET INFORMATION:\n" ++
  (if web = "" then "No recent news data available." else web) ++ "\n\n" ++
  "Please structure your response with the following sections:\n" ++
  "1. Key Findings - Main insights from the news\n" ++
  "2. Market Impact - How this affects NVIDIA's market position\n" ++
  "3. Future Implications - What this means for NVIDIA going forward\n" ++
  "4. Sources - Referenced news articles and analysis\n\n" ++
  "Format your response with clear sections and bullet points where appropriate.\n" ++
  "Preserve any links from the original sources in your response.\n"

/-- Final-answer prompt, `mode == "combined"` (lines 354–380). -/
def combinedPrompt (query rag web snow : String) : String :=
  "You are an AI assistant specializing in comprehensive NVIDIA analysis.\n\n" ++
  "Based on the following information sources, provide a detailed research report answering:\n\n" ++
  "QUERY: " ++ query ++ "\n\n" ++
  "FINANCIAL METRICS ANALYSIS:\n" ++
  (if snow = "" then "No financial metrics data available." else snow) ++ "\n\n" ++
  "QUARTERLY REPORT DATA:\n" ++
  (if rag = "" then "No historical financial data available." else rag) ++ "\n\n" ++
  "RECENT NEWS:\n" ++
  (if web = "" then "No recent news data available." else web) ++ "\n\n" ++
  "Please structure your report with the following sections:\n" ++
  "1. Executive Summary - Brief overview of findings\n" ++
  "2. Financial Metrics Analysis - Key metrics and trends\n" ++
  "3. Historical Financial Analysis - Insights from quarterly reports\n" ++
  "4. Recent Developments - News and market updates\n" ++
  "5. Conclusion - Key takeaways and implications\n" ++
  "6. Sources - Data sources used\n\n" ++
  "IMPORTANT: DO NOT try to describe any visualizations - they will be added separately.\n" ++
  "Focus on analyzing the data and insights.\n"

/-- Final-answer prompt, `mode == "pinecone"` (lines 382–399). -/
def pineconePrompt (query rag : String) : String :=
  "You are an AI assistant specializing in NVIDIA financial report analysis.\n\n" ++
  "Based on the following information from NVIDIA's quarterly reports, provide a comprehensive answer to:\n\n" ++
  "QUERY: " ++ query ++ "\n\n" ++
  "QUARTERLY REPORT DATA:\n" ++
  (if rag = "" then "No historical financial data available." else rag) ++ "\n\n" ++
  "Please structure your response with:\n" ++
  "1. Key Financial Insights\n" ++
  "2. Historical Trends\n" ++
  "3. Important Developments\n" ++
  "4. Sources\n\n" ++
  "Format your response with clear sections and bullet points where appropriate.\n"

/-- Final-answer fallback prompt for any other mode (lines 401–435). -/
def fallbackPrompt (query rag web snow : String) : String :=
  "You are an AI assistant specializing in comprehensive NVIDIA analysis.\n\n" ++
  "Based on the following information sources, provide a detailed research report answering:\n\n" ++
  "QUERY: " ++ query ++ "\n\n" ++
  "FINANCIAL METRICS ANALYSIS:\n" ++
  (if snow = "" then "No financial metrics data available." else snow) ++ "\n\n" ++
  "QUARTERLY REPORT DATA:\n" ++
  (if rag = "" then "No historical financial data available." else rag) ++ "\n\n" ++
  "RECENT NEWS:\n" ++
  (if web = "" then "No recent news data available." else web) ++ "\n\n" ++
  "Please structure your report with the following sections:\n" ++
  "1. Executive Summary - Brief overview of findings\n" ++
  "2. Financial Metrics Analysis - Key metrics and trends\n" ++
  "3. Historical Financial Analysis - Insights from quarterly reports\n" ++
  "4. Recent Developments - News and market updates\n" ++
  "   - IMPORTANT: Include the original news article links in this section\n" ++
  "   - Format as: [Article Title](URL)\n" ++
  "5. Conclusion - Key takeaways and implications\n" ++
  "6. Sources - List all referenced articles with their links\n\n" ++
  "IMPORTANT FORMATTING INSTRUCTIONS:\n" ++
  "- DO NOT try to describe any visualizations - they will be added separately\n" ++
  "- PRESERVE all markdown links from the news section in their original format: [Title](URL)\n" ++
  "- When citing news articles, always maintain the clickable links\n" ++
  "- Include the complete source URLs in the Sources section\n\n" ++
  "Focus on analyzing the data and insights while maintaining all source links.\n"

/-- Prompt selection of `generate_final_answer` by mode. -/
def finalPrompt (mode query rag web snow : String) : String :=
  if mode = "snowflake" then snowflakePrompt query snow
  else if mode = "web_search" then webSearchPrompt query web
  else if mode = "combined" then combinedPrompt query rag web snow
  else if mode = "pinecone" then pineconePrompt query rag
  else fallbackPrompt query rag web snow

/-- The `"## Sources and References"` bullet list appended by
`generate_final_answer` (lines 445–448): one `- [title](url)` line per
extracted link. -/
def sourcesSection : List WebLink → String
  | [] => ""
  | l :: ls => "- [" ++ l.title ++ "](" ++ l.url ++ ")\n" ++ sourcesSection ls

/-- The `"## Visualizations"` blocks appended by `generate_final_answer`
(lines 451–455): image markdown plus italic caption per extracted
visualization. -/
def vizSection : List VizRef → String
  | [] => ""
  | v :: vs =>
    "![" ++ v.title ++ "](" ++ v.url ++ ")\n\n" ++
    "*" ++ v.caption ++ "*\n\n" ++ vizSection vs

/-- `generate_final_answer` (lines 267–473): scan the history, build
the mode prompt, call the LLM, append the sources and visualization
sections when non-empty, record the terminal `final_answer_result`
action and set `output`. -/
def generate_final_answer (env : Env) (s : ResearchState) : ResearchState :=
  let acc := scanSteps s.intermediate_steps
  let query := s.input
  let prompt := finalPrompt s.mode query acc.rag acc.web acc.snow
  let response := env.llm prompt
  let withLinks := response ++
    (if acc.links = [] then ""
     else "\n\n## Sources and References\n\n" ++ sourcesSection acc.links)
  let final_response := withLinks ++
    (if acc.vizs = [] then ""
     else "\n\n## Visualizations\n\n" ++ vizSection acc.vizs)
  { s with output := some final_response,
           intermediate_steps := s.intermediate_steps ++
             [⟨"final_answer_result", ⟨query, none⟩, final_response⟩] }

/-- One oracle-to-oracle superstep of the compiled graph
(research_graph.py lines 28–46): run the oracle, route, run the routed
node; the flag records arrival at the terminal `final_answer` node.
`none` models an uncaught exception. -/
def stepFromOracle (env : Env) (s : ResearchState) :
    Option (ResearchState × Bool) :=
  match run_oracle env s with
  | none => none
  | some s1 =>
    match router s1 with
    | some "rag_search" => (rag_search env s1).map (fun s2 => (s2, false))
    | some "web_search" => (web_search env s1).map (fun s2 => (s2, false))
    | some "snowflake_search" =>
        (snowflake_search env s1).map (fun s2 => (s2, false))
    | some "final_answer" => some (generate_final_answer env s1, true)
    | _ => none

/-- The driver loop, fuelled by the number of oracle decisions it may
still take; `none` when fuel runs out or a step crashes. -/
def runLoop (env : Env) : Nat → ResearchState → Option ResearchState
  | 0, _ => none
  | n + 1, s =>
    match stepFromOracle env s with
    | none => none
    | some (s2, true) => some s2
    | some (s2, false) => runLoop env n s2

/-- States reachable from `s0` by supersteps of the graph; the flag is
true once the terminal node has run (no steps leave a terminal state,
matching the edge to `END`). -/
inductive Reach (env : Env) (s0 : ResearchState) :
    ResearchState → Bool → Prop where
  | start : Reach env s0 s0 false
  | step {s s' : ResearchState} {b : Bool} : Reach env s0 s false →
      stepFromOracle env s = some (s', b) → Reach env s0 s' b

/-- The initial state dict of `run_research_graph`
(research_graph.py lines 66–73). -/
def initState (query : String) (yqd : Filters) (mode : String) :
    ResearchState :=
  { input := query, chat_history := [], intermediate_steps := [],
    metadata_filters := yqd, mode := mode, output := none }

/-- LangGraph's default recursion limit, bounding the superstep count
of `graph.invoke`. -/
def recursionLimit : Nat := 25

/-- `run_research_graph` (research_graph.py lines 54–100): build the
initial state, invoke the graph, return `output` when present, else
the first `final_answer_result` log, else the fallback message. -/
def run_research_graph (env : Env) (query : String) (yqd : Filters)
    (mode : String) : Option String :=
  (runLoop env recursionLimit (initState query yqd mode)).map (fun result =>
    match result.output with
    | some out => out
    | none =>
      match result.intermediate_steps.find?
          (fun st => st.tool = "final_answer_result") with
      | some step => step.log
      | none => "No comprehensive results available. Please try again with a different query.")

/-- `ResearchRequest` from backend/main.py. -/
structure ResearchRequest where
  query : String
  year_quarter_dict : Filters
  mode : String
deriving DecidableEq, Repr

/-- `valid_modes` of the `/research` endpoint. -/
def validModes : List String := ["pinecone", "web_search", "snowflake", "combined"]

/-- The `/research` endpoint (main.py lines 98–145): validate the mode,
validate the year/quarter dict for the modes that need it, and only
then run the research graph.  `.error` is the structured error dict
returned before any node executes. -/
def research_endpoint (env : Env) (req : ResearchRequest) :
    Except String (Option String) :=
  if ¬ validModes.contains req.mode then
    .error ("Invalid mode '" ++ req.mode ++
      "'. Must be one of: pinecone, web_search, snowflake, combined")
  else if (req.mode = "pinecone" ∨ req.mode = "snowflake" ∨ req.mode = "combined") ∧
      (req.year_quarter_dict = [] ∨
        ∀ p ∈ req.year_quarter_dict, p.2 = ([] : List String)) then
    .error ("For " ++ req.mode ++ " search, at least one year and quarter must be selected")
  else
    .ok (run_research_graph env req.query req.year_quarter_dict req.mode)

theorem normalizeTool_pinecone : normalizeTool "pinecone" = "pinecone" := by decide

theorem normalizeTool_web_search : normalizeTool "web_search" = "web_search" := by decide

theorem normalizeTool_snowflake : normalizeTool "snowflake" = "snowflake" := by decide

theorem normalizeTool_final_answer : normalizeTool "final_answer" = "final_answer" := by decide

theorem normalizeTool_of_real {t : String} (h : t ∈ allTools) :
    normalizeTool t = t := by
  have h2 : t = "web_search" ∨ t = "pinecone" ∨ t = "snowflake" := by
    simpa [allTools] using h
  rcases h2 with rfl | rfl | rfl <;> decide

theorem normalizeTool_cases (s : String) :
    normalizeTool s = "pinecone" ∨ normalizeTool s = "web_search" ∨
    normalizeTool s = "snowflake" ∨ normalizeTool s = "final_answer" := by
  unfold normalizeTool
  by_cases h1 : strContains s "pinecone" = true
  · simp [h1]
  · by_cases h2 : strContains s "web" = true
    · simp [h1, h2]
    · by_cases h3 : strContains s "snow" = true
      · simp [h1, h2, h3]
      · simp [h1, h2, h3]

/-- C10: the normalization block applies its substring checks with
fixed precedence `"pinecone"`, then `"web"`, then `"snow"`: any
response containing `"pinecone"` normalizes to `pinecone` whatever
else it contains, and any response containing `"web"` but not
`"pinecone"` normalizes to `web_search` regardless of `"snow"`. -/
theorem c10_normalization_precedence (s : String) :
    (strContains s "pinecone" = true → normalizeTool s = "pinecone") ∧
    (strContains s "web" = true → strContains s "pinecone" = false →
      normalizeTool s = "web_search") := by
  constructor
  · intro h
    simp [normalizeTool, h]
  · intro hw hp
    simp [normalizeTool, hp, hw]

/-- Witness for C10 at concrete inputs containing several keywords. -/
theorem c10_normalization_precedence_witness :
    normalizeTool "pinecone then web then snow" = "pinecone" ∧
    normalizeTool "web then snow" = "web_search" :=
  ⟨(c10_normalization_precedence "pinecone then web then snow").1 (by decide),
   (c10_normalization_precedence "web then snow").2 (by decide) (by decide)⟩

/-- A state whose last action carries an unrecognized tool name. -/
def bogusToolState : ResearchState :=
  { input := "q", chat_history := [],
    intermediate_steps := [⟨"bogus_tool", ⟨"q", none⟩, ""⟩],
    metadata_filters := [], mode := "combined", output := none }

/-- C5 counterexample: on a malformed history whose last tool name is
unrecognized, `router` returns no route (Python `None` from
`dict.get`), not `"final_answer"` as the claim states. -/
theorem c5_router_counterexample :
    router bogusToolState = none ∧ router bogusToolState ≠ some "final_answer" := by
  constructor
  · decide
  · decide

/-- C5 (amended): `router` is a pure total side-effect-free function of
the last history element's tool field, routing through the fixed table;
an *empty* history defaults to `final_answer`, but an unrecognized last
tool name yields no route (`none`) rather than `final_answer`. -/
theorem c5_router_pure_table :
    (∀ s : ResearchState,
      router s = (match (s.intermediate_steps.map (fun a => a.tool)).getLast? with
        | none => some "final_answer"
        | some t => tool_to_node t)) ∧
    (∀ s1 s2 : ResearchState,
      (s1.intermediate_steps.map (fun a => a.tool)).getLast? =
        (s2.intermediate_steps.map (fun a => a.tool)).getLast? →
      router s1 = router s2) := by
  have key : ∀ s : ResearchState,
      router s = (match (s.intermediate_steps.map (fun a => a.tool)).getLast? with
        | none => some "final_answer"
        | some t => tool_to_node t) := by
    intro s
    unfold router
    rw [List.getLast?_map]
    cases s.intermediate_steps.getLast? with
    | none => rfl
    | some a => rfl
  refine ⟨key, fun s1 s2 h => ?_⟩
  rw [key s1, key s2, h]

/-- Witness for C5 (amended): two states with the same last tool route
identically, and the table is exercised at a concrete state. -/
theorem c5_router_pure_table_witness :
    router { input := "a", chat_history := [],
             intermediate_steps := [⟨"pinecone", ⟨"a", none⟩, ""⟩],
             metadata_filters := [], mode := "combined", output := none } =
      router { input := "b", chat_history := ["h"],
               intermediate_steps := [⟨"x", ⟨"b", none⟩, "l"⟩,
                 ⟨"pinecone", ⟨"b", none⟩, ""⟩],
               metadata_filters := [("2024", ["1"])], mode := "pinecone",
               output := none } :=
  c5_router_pure_table.2 _ _ (by decide)

/-- C8: the `/research` endpoint rejects every unknown mode, and every
`pinecone`/`snowflake`/`combined` request whose year/quarter dict is
empty or has all-empty value lists, returning the structured error
before `run_research_graph` is invoked (the `.ok` branch, which alone
runs the graph, is not taken), so no Action history is created. -/
theorem c8_request_validation (env : Env) (req : ResearchRequest) :
    (req.mode ∉ validModes →
      research_endpoint env req = .error ("Invalid mode '" ++ req.mode ++
        "'. Must be one of: pinecone, web_search, snowflake, combined")) ∧
    ((req.mode = "pinecone" ∨ req.mode = "snowflake" ∨ req.mode = "combined") →
      (req.year_quarter_dict = [] ∨
        ∀ p ∈ req.year_quarter_dict, p.2 = ([] : List String)) →
      research_endpoint env req = .error ("For " ++ req.mode ++
        " search, at least one year and quarter must be selected")) := by
  constructor
  · intro h
    unfold research_endpoint
    rw [if_pos (by simpa using h)]
  · intro hmode hempty
    have hvalid : req.mode ∈ validModes := by
      rcases hmode with h | h | h <;> simp [h, validModes]
    unfold research_endpoint
    rw [if_neg (by simpa using hvalid), if_pos ⟨hmode, hempty⟩]

/-- A concrete environment with constant collaborators, used to
instantiate hypotheses in witnesses and counterexamples. -/
def constEnv : Env :=
  { llm := fun _ => "", pick := fun l => l.headD "", ragInit := .ok (),
    ragBackend := fun _ _ => .ok "", webBackend := fun _ => .ok (.success [] [] ""),
    snowBackend := fun _ _ => .ok ⟨"", []⟩ }

/-- Witness for C8: a bad-mode request and the spec's scenario
(`mode="pinecone"`, empty dict) are both rejected with the exact
error strings. -/
theorem c8_request_validation_witness :
    research_endpoint constEnv ⟨"q", [], "oracle"⟩ = .error
      "Invalid mode 'oracle'. Must be one of: pinecone, web_search, snowflake, combined" ∧
    research_endpoint constEnv ⟨"q", [], "pinecone"⟩ = .error
      "For pinecone search, at least one year and quarter must be selected" := by
  constructor
  · exact (c8_request_validation _ _).1 (by decide)
  · exact (c8_request_validation _ _).2 (Or.inl rfl) (Or.inl rfl)

/-- The result-action tool name recorded by the node a real tool
routes to. -/
def resName (t : String) : String :=
  if t = "pinecone" then "rag_search_result"
  else if t = "web_search" then "web_search_result"
  else "snowflake_search_result"

/-- Tool-name trace of a combined run that has completed `ts` cycles:
each selected tool followed by its node's result marker. -/
def selResTools : List String → List String
  | [] => []
  | t :: ts => t :: resName t :: selResTools ts

/-- Invariant of combined-mode runs between supersteps: the history is
exactly the selection/result interleaving of a duplicate-free list of
real tools. -/
def TraceInv (s : ResearchState) (ts : List String) : Prop :=
  s.mode = "combined" ∧
  s.intermediate_steps.map (fun a => a.tool) = selResTools ts ∧
  ts.Nodup ∧ ∀ t ∈ ts, t ∈ allTools

theorem selResTools_concat (ts : List String) (t : String) :
    selResTools (ts ++ [t]) = selResTools ts ++ [t, resName t] := by
  induction ts with
  | nil => rfl
  | cons x xs ih => simp [selResTools, ih]

theorem resName_mem (t : String) :
    resName t = "rag_search_result" ∨ resName t = "web_search_result" ∨
    resName t = "snowflake_search_result" := by
  unfold resName
  split_ifs <;> simp

theorem real_ne_resName {r t : String} (hr : r ∈ allTools) : r ≠ resName t := by
  have hm := resName_mem t
  have hr2 : r = "web_search" ∨ r = "pinecone" ∨ r = "snowflake" := by
    simpa [allTools] using hr
  rcases hr2 with rfl | rfl | rfl <;> rcases hm with h | h | h <;> rw [h] <;> decide

theorem mem_selResTools_iff {r : String} (hr : r ∈ allTools) (ts : List String) :
    r ∈ selResTools ts ↔ r ∈ ts := by
  induction ts with
  | nil => simp [selResTools]
  | cons x xs ih =>
    simp only [selResTools, List.mem_cons]
    constructor
    · rintro (h | h | h)
      · exact Or.inl h
      · exact absurd h (real_ne_resName hr)
      · exact Or.inr (ih.mp h)
    · rintro (h | h)
      · exact Or.inl h
      · exact Or.inr (Or.inr (ih.mpr h))

theorem count_selResTools {r : String} (hr : r ∈ allTools) (ts : List String) :
    (selResTools ts).count r = ts.count r := by
  induction ts with
  | nil => simp [selResTools]
  | cons x xs ih =>
    simp only [selResTools, List.count_cons, ih]
    have : (resName x == r) = false := by
      simp [BEq.symm_false, (real_ne_resName hr : r ≠ resName x)]
    simp [this]

theorem nodup_subset_length {l1 l2 : List String} (h : l1 ⊆ l2)
    (hn : l1.Nodup) : l1.length ≤ l2.length := by
  have h1 : l1.toFinset ⊆ l2.toFinset := by
    intro x hx
    simp only [List.mem_toFinset] at hx ⊢
    exact h hx
  have h2 := Finset.card_le_card h1
  have h3 : l1.toFinset.card = l1.length := List.toFinset_card_of_nodup hn
  have h4 : l2.toFinset.card ≤ l2.length := l2.toFinset_card_le
  omega

theorem selResTools_ne_nil {ts : List String} (h : ts ≠ []) :
    selResTools ts ≠ [] := by
  cases ts with
  | nil => exact absurd rfl h
  | cons x xs => simp [selResTools]

/-- Characterization of `used_real_tools` under the trace invariant. -/
theorem usedRealTools_of_inv {s : ResearchState} {ts : List String}
    (hsteps : s.intermediate_steps.map (fun a => a.tool) = selResTools ts)
    (hsub : ∀ t ∈ ts, t ∈ allTools) :
    usedRealTools s = allTools.filter (fun t => ts.contains t) := by
  unfold usedRealTools usedTools
  rw [hsteps]
  apply List.filter_congr
  intro x hx
  have hiff := mem_selResTools_iff hx ts
  by_cases hxm : x ∈ ts
  · have h1 : x ∈ selResTools ts := hiff.mpr hxm
    simp [hxm, h1]
  · have h1 : x ∉ selResTools ts := fun h => hxm (hiff.mp h)
    simp [hxm, h1]

theorem unusedTools_of_inv {s : ResearchState} {ts : List String}
    (hsteps : s.intermediate_steps.map (fun a => a.tool) = selResTools ts)
    (hsub : ∀ t ∈ ts, t ∈ allTools) :
    unusedTools s = allTools.filter (fun t => !(ts.contains t)) := by
  unfold unusedTools
  rw [usedRealTools_of_inv hsteps hsub]
  apply List.filter_congr
  intro x hx
  have h1 : x ∈ allTools.filter (fun t => ts.contains t) ↔ x ∈ ts := by
    constructor
    · intro h
      simpa using (List.mem_filter.mp h).2
    · intro h
      exact List.mem_filter.mpr ⟨hx, by simpa using h⟩
  by_cases hxm : x ∈ ts
  · simp [h1, hxm, hx]
  · simp [h1, hxm, hx]

theorem usedRealTools_length_lt {s : ResearchState} {ts : List String}
    (hsteps : s.intermediate_steps.map (fun a => a.tool) = selResTools ts)
    (hnodup : ts.Nodup) (hsub : ∀ t ∈ ts, t ∈ allTools)
    (hlen : ts.length < 3) : (usedRealTools s).length < 3 := by
  rw [usedRealTools_of_inv hsteps hsub]
  by_contra hge
  push_neg at hge
  have hle : (allTools.filter (fun t => ts.contains t)).length ≤ 3 := by
    have := List.length_filter_le (fun t => ts.contains t) allTools
    simpa [allTools] using this
  have heq : (allTools.filter (fun t => ts.contains t)).length = allTools.length := by
    simp only [show allTools.length = 3 from rfl]
    omega
  have hfeq : allTools.filter (fun t => ts.contains t) = allTools :=
    (List.filter_sublist allTools).eq_of_length heq
  have hall : ∀ t ∈ allTools, t ∈ ts := by
    intro t ht
    have hmem : t ∈ allTools.filter (fun t => ts.contains t) := by
      rw [hfeq]; exact ht
    simpa using (List.mem_filter.mp hmem).2
  have : allTools.length ≤ ts.length :=
    nodup_subset_length hall (by decide)
  simp [allTools] at this
  omega

theorem unusedTools_ne_nil {s : ResearchState} {ts : List String}
    (hsteps : s.intermediate_steps.map (fun a => a.tool) = selResTools ts)
    (hnodup : ts.Nodup) (hsub : ∀ t ∈ ts, t ∈ allTools)
    (hlen : ts.length < 3) : unusedTools s ≠ [] := by
  rw [unusedTools_of_inv hsteps hsub]
  show allTools.filter (fun t => !(ts.contains t)) ≠ []
  intro hnil
  rw [List.filter_eq_nil_iff] at hnil
  have hall : ∀ t ∈ allTools, t ∈ ts := by
    intro t ht
    have := hnil t ht
    simpa using this
  have : allTools.length ≤ ts.length := nodup_subset_length hall (by decide)
  simp [allTools] at this
  omega

theorem mem_unusedTools {s : ResearchState} {ts : List String} {c : String}
    (hsteps : s.intermediate_steps.map (fun a => a.tool) = selResTools ts)
    (hsub : ∀ t ∈ ts, t ∈ allTools) (hc : c ∈ unusedTools s) :
    c ∈ allTools ∧ c ∉ ts := by
  rw [unusedTools_of_inv hsteps hsub] at hc
  obtain ⟨h1, h2⟩ := List.mem_filter.mp hc
  exact ⟨h1, by simpa using h2⟩

theorem run_oracle_single {env : Env} {s : ResearchState}
    (hmode : s.mode = "pinecone" ∨ s.mode = "web_search" ∨ s.mode = "snowflake") :
    run_oracle env s = some (appendSel s (normalizeTool
      (if usedTools s = [] then s.mode else "final_answer"))) := by
  simp only [run_oracle]
  rw [if_pos hmode]
  rfl

theorem run_oracle_first {env : Env} {s : ResearchState}
    (hmode : s.mode = "combined") (hne : usedTools s = []) :
    run_oracle env s = some (appendSel s (normalizeTool
      (pyLower (pyStrip (env.llm (firstToolPrompt s.input)))))) := by
  simp only [run_oracle]
  have h1 : ¬(s.mode = "pinecone" ∨ s.mode = "web_search" ∨ s.mode = "snowflake") := by
    simp [hmode]
  rw [if_neg h1, if_pos hmode, if_pos hne]
  rfl

theorem run_oracle_mid {env : Env} {s : ResearchState}
    (hmode : s.mode = "combined") (hne : usedTools s ≠ [])
    (hlt : (usedRealTools s).length < 3) :
    run_oracle env s = some (appendSel s (normalizeTool
      (if (unusedTools s).contains (rawNextChoice env s) then rawNextChoice env s
       else env.pick (unusedTools s)))) := by
  simp only [run_oracle]
  have h1 : ¬(s.mode = "pinecone" ∨ s.mode = "web_search" ∨ s.mode = "snowflake") := by
    simp [hmode]
  rw [if_neg h1, if_pos hmode, if_neg hne, if_pos hlt]
  rfl

theorem run_oracle_exhausted {env : Env} {s : ResearchState}
    (hmode : s.mode = "combined") (hne : usedTools s ≠ [])
    (hlt : ¬ (usedRealTools s).length < 3) :
    run_oracle env s = some (appendSel s "final_answer") := by
  simp only [run_oracle]
  have h1 : ¬(s.mode = "pinecone" ∨ s.mode = "web_search" ∨ s.mode = "snowflake") := by
    simp [hmode]
  rw [if_neg h1, if_pos hmode, if_neg hne, if_neg hlt]
  simp [show normalizeTool "final_answer" = "final_answer" from by decide]

theorem router_appendSel (s : ResearchState) (c : String) :
    router (appendSel s c) = tool_to_node c := by
  unfold router appendSel
  simp [selAction]

theorem rag_search_shape {env : Env} (s : ResearchState) (c : String)
    (hrag : env.ragInit = .ok ()) :
    ∃ lg, rag_search env (appendSel s c) = some
      { s with intermediate_steps := s.intermediate_steps ++
          [selAction s c, ⟨"rag_search_result", ⟨s.input, some s.metadata_filters⟩, lg⟩] } := by
  refine ⟨(match env.ragBackend s.input s.metadata_filters with
    | .ok r => r
    | .error e => "Error searching Pinecone: " ++ e), ?_⟩
  unfold rag_search appendSel
  rw [List.getLast?_concat]
  rw [hrag]
  simp [selAction]

theorem web_search_shape (env : Env) (s : ResearchState) (c : String) :
    ∃ lg, web_search env (appendSel s c) = some
      { s with intermediate_steps := s.intermediate_steps ++
          [selAction s c, ⟨"web_search_result", ⟨s.input, some s.metadata_filters⟩, lg⟩] } := by
  refine ⟨(match env.webBackend s.input with
    | .error e => "Error searching web: " ++ e
    | .ok (.statusError err) => "Error in web search: " ++ err
    | .ok (.success news trends insights) => formatWebSuccess news trends insights), ?_⟩
  unfold web_search appendSel
  rw [List.getLast?_concat]
  simp [selAction]

theorem snowflake_search_shape (env : Env) (s : ResearchState) (c : String) :
    ∃ lg, snowflake_search env (appendSel s c) = some
      { s with intermediate_steps := s.intermediate_steps ++
          [selAction s c, ⟨"snowflake_search_result", ⟨s.input, some s.metadata_filters⟩, lg⟩] } := by
  refine ⟨(match env.snowBackend s.input s.metadata_filters with
    | .ok r => formatSnowSuccess r
    | .error e => "Error searching Snowflake: " ++ e), ?_⟩
  unfold snowflake_search appendSel
  rw [List.getLast?_concat]
  simp [selAction]

theorem generate_final_answer_shape (env : Env) (s : ResearchState) :
    ∃ out, generate_final_answer env s =
      { s with output := some out,
               intermediate_steps := s.intermediate_steps ++
                 [⟨"final_answer_result", ⟨s.input, none⟩, out⟩] } :=
  ⟨_, rfl⟩

/-- Middle superstep of a combined run: with at least one and fewer
than three tools used, the oracle always selects a fresh real tool and
its node appends the matching result, growing the trace by one cycle. -/
theorem step_mid {env : Env} {s : ResearchState} {ts : List String}
    (hpick : PickValid env) (hrag : env.ragInit = .ok ())
    (hinv : TraceInv s ts) (hne : ts ≠ []) (hlen : ts.length < 3) :
    ∃ c s2, c ∈ allTools ∧ c ∉ ts ∧
      stepFromOracle env s = some (s2, false) ∧ TraceInv s2 (ts ++ [c]) := by
  obtain ⟨hmode, hsteps, hnodup, hsub⟩ := hinv
  have hUTne : usedTools s ≠ [] := by
    unfold usedTools
    rw [hsteps]
    exact selResTools_ne_nil hne
  have hURlt := usedRealTools_length_lt hsteps hnodup hsub hlen
  have horacle := @run_oracle_mid env _ hmode hUTne hURlt
  have hbig : (if (unusedTools s).contains (rawNextChoice env s) then
      rawNextChoice env s else env.pick (unusedTools s)) ∈ unusedTools s := by
    by_cases hin : (unusedTools s).contains (rawNextChoice env s)
    · rw [if_pos hin]
      simpa using hin
    · rw [if_neg hin]
      exact hpick _ (unusedTools_ne_nil hsteps hnodup hsub hlen)
  generalize hg : (if (unusedTools s).contains (rawNextChoice env s) = true then
    rawNextChoice env s else env.pick (unusedTools s)) = c0 at horacle hbig
  obtain ⟨hcA, hcN⟩ := mem_unusedTools hsteps hsub hbig
  have hnorm : normalizeTool c0 = c0 := normalizeTool_of_real hcA
  rw [hnorm] at horacle
  have hinv2 : ∀ rn : String, rn = resName c0 →
      ∀ lg, TraceInv { s with intermediate_steps := s.intermediate_steps ++
          [selAction s c0, ⟨rn, ⟨s.input, some s.metadata_filters⟩, lg⟩] } (ts ++ [c0]) := by
    intro rn hrn lg
    refine ⟨hmode, ?_, ?_, ?_⟩
    · simp only [List.map_append, hsteps, selResTools_concat]
      simp [selAction, hrn]
    · simp only [List.nodup_append]
      refine ⟨hnodup, by simp, ?_⟩
      intro a ha
      simp only [List.mem_singleton]
      intro hcontr
      rw [hcontr] at ha
      exact hcN ha
    · intro t ht
      rcases List.mem_append.mp ht with ht | ht
      · exact hsub t ht
      · rw [List.mem_singleton.mp ht]
        exact hcA
  have hcases : c0 = "web_search" ∨ c0 = "pinecone" ∨ c0 = "snowflake" := by
    simpa [allTools] using hcA
  rcases hcases with rfl | rfl | rfl
  · obtain ⟨lg, hnode⟩ := web_search_shape env s "web_search"
    refine ⟨"web_search", _, hcA, hcN, ?_, hinv2 "web_search_result" (by decide) lg⟩
    simp only [stepFromOracle, horacle, router_appendSel, tool_to_node]
    simp [hnode]
  · obtain ⟨lg, hnode⟩ := rag_search_shape s "pinecone" hrag
    refine ⟨"pinecone", _, hcA, hcN, ?_, hinv2 "rag_search_result" (by decide) lg⟩
    simp only [stepFromOracle, horacle, router_appendSel, tool_to_node]
    simp [hnode]
  · obtain ⟨lg, hnode⟩ := snowflake_search_shape env s "snowflake"
    refine ⟨"snowflake", _, hcA, hcN, ?_, hinv2 "snowflake_search_result" (by decide) lg⟩
    simp only [stepFromOracle, horacle, router_appendSel, tool_to_node]
    simp [hnode]

/-- First superstep of a combined run: either the model's normalized
first choice is `final_answer` and the run terminates immediately, or
a real tool is selected and one cycle is recorded. -/
theorem step_first {env : Env} {s : ResearchState}
    (hrag : env.ragInit = .ok ()) (hmode : s.mode = "combined")
    (hsteps : s.intermediate_steps = []) :
    (normalizeTool (pyLower (pyStrip (env.llm (firstToolPrompt s.input)))) = "final_answer" ∧
      ∃ out s2, stepFromOracle env s = some (s2, true) ∧
        s2.intermediate_steps.map (fun a => a.tool) =
          ["final_answer", "final_answer_result"] ∧ s2.output = some out) ∨
    (∃ c s2, c ∈ allTools ∧ stepFromOracle env s = some (s2, false) ∧
      TraceInv s2 [c]) := by
  have hUT : usedTools s = [] := by
    unfold usedTools
    rw [hsteps]
    rfl
  have horacle := @run_oracle_first env _ hmode hUT
  have hc4 := normalizeTool_cases (pyLower (pyStrip (env.llm (firstToolPrompt s.input))))
  generalize hg : normalizeTool (pyLower (pyStrip (env.llm (firstToolPrompt s.input)))) = c0
    at horacle hc4
  have hinv2 : ∀ c : String, c ∈ allTools → ∀ rn : String, rn = resName c →
      ∀ lg, TraceInv { s with intermediate_steps := s.intermediate_steps ++
          [selAction s c, ⟨rn, ⟨s.input, some s.metadata_filters⟩, lg⟩] } [c] := by
    intro c hc rn hrn lg
    refine ⟨hmode, ?_, by simp, ?_⟩
    · simp only [List.map_append, hsteps]
      simp [selAction, hrn, selResTools]
    · intro t ht
      rw [List.mem_singleton.mp ht]
      exact hc
  rcases hc4 with rfl | rfl | rfl | rfl
  · right
    obtain ⟨lg, hnode⟩ := rag_search_shape s "pinecone" hrag
    refine ⟨"pinecone", _, by decide, ?_,
      hinv2 "pinecone" (by decide) "rag_search_result" (by decide) lg⟩
    simp only [stepFromOracle, horacle, router_appendSel, tool_to_node]
    simp [hnode]
  · right
    obtain ⟨lg, hnode⟩ := web_search_shape env s "web_search"
    refine ⟨"web_search", _, by decide, ?_,
      hinv2 "web_search" (by decide) "web_search_result" (by decide) lg⟩
    simp only [stepFromOracle, horacle, router_appendSel, tool_to_node]
    simp [hnode]
  · right
    obtain ⟨lg, hnode⟩ := snowflake_search_shape env s "snowflake"
    refine ⟨"snowflake", _, by decide, ?_,
      hinv2 "snowflake" (by decide) "snowflake_search_result" (by decide) lg⟩
    simp only [stepFromOracle, horacle, router_appendSel, tool_to_node]
    simp [hnode]
  · left
    obtain ⟨out, hfin⟩ := generate_final_answer_shape env (appendSel s "final_answer")
    refine ⟨rfl, out, generate_final_answer env (appendSel s "final_answer"), ?_, ?_, ?_⟩
    · simp only [stepFromOracle, horacle, router_appendSel, tool_to_node]
      simp
    · rw [hfin]
      simp [appendSel, hsteps, selAction]
    · rw [hfin]

/-- Terminal superstep of a combined run: all three tools used, the
oracle selects `final_answer` and the finalizer records the terminal
result action. -/
theorem step_exhausted {env : Env} {s : ResearchState} {ts : List String}
    (hinv : TraceInv s ts) (hlen : ts.length = 3) :
    ∃ out s2, stepFromOracle env s = some (s2, true) ∧
      s2.intermediate_steps.map (fun a => a.tool) =
        selResTools ts ++ ["final_answer", "final_answer_result"] ∧
      s2.output = some out := by
  obtain ⟨hmode, hsteps, hnodup, hsub⟩ := hinv
  have hne : ts ≠ [] := by
    intro h
    rw [h] at hlen
    simp at hlen
  have hUTne : usedTools s ≠ [] := by
    unfold usedTools
    rw [hsteps]
    exact selResTools_ne_nil hne
  have hall : ∀ t ∈ allTools, t ∈ ts := by
    have h1 : ts.toFinset ⊆ allTools.toFinset := by
      intro x hx
      simp only [List.mem_toFinset] at hx ⊢
      exact hsub x hx
    have hcard1 : ts.toFinset.card = 3 := by
      rw [List.toFinset_card_of_nodup hnodup, hlen]
    have hcard2 : allTools.toFinset.card = 3 := by decide
    have heq := Finset.eq_of_subset_of_card_le h1 (by omega)
    intro t ht
    have : t ∈ ts.toFinset := by
      rw [heq]
      exact List.mem_toFinset.mpr ht
    exact List.mem_toFinset.mp this
  have hURfull : usedRealTools s = allTools := by
    rw [usedRealTools_of_inv hsteps hsub]
    rw [List.filter_eq_self]
    intro t ht
    simpa using hall t ht
  have hURnlt : ¬ (usedRealTools s).length < 3 := by
    rw [hURfull]
    simp [allTools]
  have horacle := @run_oracle_exhausted env _ hmode hUTne hURnlt
  obtain ⟨out, hfin⟩ := generate_final_answer_shape env (appendSel s "final_answer")
  refine ⟨out, generate_final_answer env (appendSel s "final_answer"), ?_, ?_, ?_⟩
  · simp only [stepFromOracle, horacle, router_appendSel, tool_to_node]
    simp
  · rw [hfin]
    simp [appendSel, hsteps, selAction]
  · rw [hfin]

/-- First superstep of a single-tool-mode run: the mode's tool is
selected and its node appends the matching result. -/
theorem step_single_first {env : Env} {s : ResearchState}
    (hrag : env.ragInit = .ok ())
    (hmode : s.mode = "pinecone" ∨ s.mode = "web_search" ∨ s.mode = "snowflake")
    (hsteps : s.intermediate_steps = []) :
    ∃ s2, stepFromOracle env s = some (s2, false) ∧ s2.mode = s.mode ∧
      s2.intermediate_steps ≠ [] := by
  have hUT : usedTools s = [] := by
    unfold usedTools
    rw [hsteps]
    rfl
  have horacle := @run_oracle_single env _ hmode
  rw [if_pos hUT] at horacle
  rcases hmode with hm | hm | hm
  · rw [hm, show normalizeTool "pinecone" = "pinecone" from by decide] at horacle
    obtain ⟨lg, hnode⟩ := rag_search_shape s "pinecone" hrag
    refine ⟨{ s with intermediate_steps := s.intermediate_steps ++
        [selAction s "pinecone",
          ⟨"rag_search_result", ⟨s.input, some s.metadata_filters⟩, lg⟩] }, ?_, by simp, by simp⟩
    simp only [stepFromOracle, horacle, router_appendSel, tool_to_node]
    simp [hnode]
  · rw [hm, show normalizeTool "web_search" = "web_search" from by decide] at horacle
    obtain ⟨lg, hnode⟩ := web_search_shape env s "web_search"
    refine ⟨{ s with intermediate_steps := s.intermediate_steps ++
        [selAction s "web_search",
          ⟨"web_search_result", ⟨s.input, some s.metadata_filters⟩, lg⟩] }, ?_, by simp, by simp⟩
    simp only [stepFromOracle, horacle, router_appendSel, tool_to_node]
    simp [hnode]
  · rw [hm, show normalizeTool "snowflake" = "snowflake" from by decide] at horacle
    obtain ⟨lg, hnode⟩ := snowflake_search_shape env s "snowflake"
    refine ⟨{ s with intermediate_steps := s.intermediate_steps ++
        [selAction s "snowflake",
          ⟨"snowflake_search_result", ⟨s.input, some s.metadata_filters⟩, lg⟩] }, ?_, by simp, by simp⟩
    simp only [stepFromOracle, horacle, router_appendSel, tool_to_node]
    simp [hnode]

/-- Second superstep of a single-tool-mode run: one tool has been used,
so the oracle selects `final_answer` and the run terminates. -/
theorem step_single_second {env : Env} {s : ResearchState}
    (hmode : s.mode = "pinecone" ∨ s.mode = "web_search" ∨ s.mode = "snowflake")
    (hne : s.intermediate_steps ≠ []) :
    ∃ out s2, stepFromOracle env s = some (s2, true) ∧
      s2.intermediate_steps = s.intermediate_steps ++
        [selAction s "final_answer",
         ⟨"final_answer_result", ⟨s.input, none⟩, out⟩] ∧
      s2.output = some out := by
  have hUT : usedTools s ≠ [] := by
    unfold usedTools
    simpa using hne
  have horacle := @run_oracle_single env _ hmode
  rw [if_neg hUT, show normalizeTool "final_answer" = "final_answer" from by decide]
    at horacle
  obtain ⟨out, hfin⟩ := generate_final_answer_shape env (appendSel s "final_answer")
  refine ⟨out, generate_final_answer env (appendSel s "final_answer"), ?_, ?_, ?_⟩
  · simp only [stepFromOracle, horacle, router_appendSel, tool_to_node]
    simp
  · rw [hfin]
    simp [appendSel]
  · rw [hfin]

theorem selResTools_length (ts : List String) :
    (selResTools ts).length = 2 * ts.length := by
  induction ts with
  | nil => simp [selResTools]
  | cons x xs ih => simp [selResTools, ih]; omega

/-- Complete description of a combined-mode run within 4 oracle
decisions: either the first decision already normalizes to
`final_answer` (two actions), or three duplicate-free real tool cycles
are followed by the terminal pair. -/
theorem combined_run {env : Env} (q : String) (f : Filters)
    (hpick : PickValid env) (hrag : env.ragInit = .ok ()) :
    ∃ s', runLoop env 4 (initState q f "combined") = some s' ∧
      s'.output ≠ none ∧
      ((normalizeTool (pyLower (pyStrip (env.llm (firstToolPrompt q)))) = "final_answer" ∧
        s'.intermediate_steps.map (fun a => a.tool) =
          ["final_answer", "final_answer_result"]) ∨
       (∃ ts, ts.Nodup ∧ (∀ t ∈ ts, t ∈ allTools) ∧ ts.length = 3 ∧
        s'.intermediate_steps.map (fun a => a.tool) =
          selResTools ts ++ ["final_answer", "final_answer_result"])) := by
  rcases step_first (s := initState q f "combined") hrag rfl rfl with
    ⟨hnorm, out, s2, hstep, hmap, hout⟩ | ⟨c1, s1, hc1, hstep1, hinv1⟩
  · refine ⟨s2, ?_, by simp [hout], Or.inl ⟨hnorm, hmap⟩⟩
    simp [runLoop, hstep]
  · obtain ⟨c2, s2, hc2A, hc2N, hstep2, hinv2⟩ :=
      step_mid hpick hrag hinv1 (by simp) (by simp)
    obtain ⟨c3, s3, hc3A, hc3N, hstep3, hinv3⟩ :=
      step_mid hpick hrag hinv2 (by simp) (by simp)
    obtain ⟨out, s4, hstep4, hmap4, hout4⟩ :=
      @step_exhausted env _ _ hinv3 (by simp)
    refine ⟨s4, ?_, by simp [hout4], Or.inr ⟨[c1] ++ [c2] ++ [c3], ?_, ?_, by simp, ?_⟩⟩
    · simp only [runLoop, hstep1, hstep2, hstep3, hstep4]
    · exact hinv3.2.2.1
    · exact hinv3.2.2.2
    · exact hmap4

/-- C1: treating the LLM as an arbitrary function from prompts to
response strings (and the Python set iteration order as an arbitrary
valid choice), every combined-mode run appends a `final_answer_result`
action within at most 4 oracle decisions, and every single-mode run
(`pinecone`, `web_search`, `snowflake`) terminates after exactly 2
oracle decisions — not after 1 — provided the vector-store adapter
constructor does not raise. -/
theorem c1_termination :
    (∀ (env : Env) (q : String) (f : Filters), PickValid env →
      env.ragInit = .ok () →
      ∃ s', runLoop env 4 (initState q f "combined") = some s' ∧
        (s'.intermediate_steps.map (fun a => a.tool)).getLast? =
          some "final_answer_result") ∧
    (∀ (env : Env) (q : String) (f : Filters) (m : String),
      (m = "pinecone" ∨ m = "web_search" ∨ m = "snowflake") →
      env.ragInit = .ok () →
      runLoop env 1 (initState q f m) = none ∧
      ∃ s', runLoop env 2 (initState q f m) = some s' ∧
        (s'.intermediate_steps.map (fun a => a.tool)).getLast? =
          some "final_answer_result") := by
  constructor
  · intro env q f hpick hrag
    obtain ⟨s', hrun, _, hshape⟩ := combined_run q f hpick hrag
    refine ⟨s', hrun, ?_⟩
    rcases hshape with ⟨_, hmap⟩ | ⟨ts, _, _, _, hmap⟩
    · rw [hmap]
      rfl
    · rw [hmap]
      simp
  · intro env q f m hm hrag
    obtain ⟨s2, hstep, hmode2, hne2⟩ :=
      step_single_first (s := initState q f m) hrag hm rfl
    constructor
    · simp [runLoop, hstep]
    · obtain ⟨out, s3, hstep2, hmap3, hout3⟩ :=
        @step_single_second env s2 (by rw [hmode2]; exact hm) hne2
      refine ⟨s3, ?_, ?_⟩
      · simp only [runLoop, hstep, hstep2]
      · rw [hmap3]
        simp [selAction]

/-- Witness for C1 at a concrete environment, query and filter set. -/
theorem c1_termination_witness :
    (∃ s', runLoop constEnv 4 (initState "q" [] "combined") = some s' ∧
      (s'.intermediate_steps.map (fun a => a.tool)).getLast? =
        some "final_answer_result") ∧
    runLoop constEnv 1 (initState "q" [] "pinecone") = none ∧
    (∃ s', runLoop constEnv 2 (initState "q" [] "pinecone") = some s' ∧
      (s'.intermediate_steps.map (fun a => a.tool)).getLast? =
        some "final_answer_result") := by
  refine ⟨c1_termination.1 constEnv "q" [] ?_ rfl,
    c1_termination.2 constEnv "q" [] "pinecone" (Or.inl rfl) rfl⟩
  intro l hl
  cases l with
  | nil => exact absurd rfl hl
  | cons x xs => simp [constEnv]

/-- Invariant of all reachable states of a combined-mode run. -/
theorem reach_inv {env : Env} {q : String} {f : Filters}
    {s : ResearchState} {b : Bool} (hpick : PickValid env)
    (hrag : env.ragInit = .ok ())
    (hre : Reach env (initState q f "combined") s b) :
    (b = false ∧ ∃ ts, TraceInv s ts ∧ ts.length ≤ 3) ∨
    (b = true ∧ ∃ ts, ts.Nodup ∧ (∀ t ∈ ts, t ∈ allTools) ∧
      s.intermediate_steps.map (fun a => a.tool) =
        selResTools ts ++ ["final_answer", "final_answer_result"]) := by
  induction hre with
  | start =>
    left
    exact ⟨rfl, [], ⟨rfl, rfl, by simp, by simp⟩, by simp⟩
  | @step sp s' b' hre' hstep ih =>
    rcases ih with ⟨_, ts, hinv, hlen⟩ | ⟨hb, _⟩
    · by_cases hts : ts = []
      · subst hts
        have hsteps0 : sp.intermediate_steps = [] := by
          have := hinv.2.1
          simpa [selResTools] using this
        rcases step_first hrag hinv.1 hsteps0 with
          ⟨_, out, s2, hstep2, hmap2, hout2⟩ | ⟨c, s2, hc, hstep2, hinv2⟩
        · rw [hstep2] at hstep
          obtain ⟨h1, h2⟩ := Prod.mk.injEq .. ▸ (Option.some.injEq .. ▸ hstep)
          subst h1 h2
          right
          refine ⟨rfl, [], by simp, by simp, ?_⟩
          simpa [selResTools] using hmap2
        · rw [hstep2] at hstep
          obtain ⟨h1, h2⟩ := Prod.mk.injEq .. ▸ (Option.some.injEq .. ▸ hstep)
          subst h1 h2
          left
          exact ⟨rfl, [c], hinv2, by simp⟩
      · by_cases hlen3 : ts.length = 3
        · obtain ⟨out, s2, hstep2, hmap2, hout2⟩ :=
            @step_exhausted env _ _ hinv hlen3
          rw [hstep2] at hstep
          obtain ⟨h1, h2⟩ := Prod.mk.injEq .. ▸ (Option.some.injEq .. ▸ hstep)
          subst h1 h2
          right
          exact ⟨rfl, ts, hinv.2.2.1, hinv.2.2.2, hmap2⟩
        · obtain ⟨c, s2, hcA, hcN, hstep2, hinv2⟩ :=
            step_mid hpick hrag hinv hts (by omega)
          rw [hstep2] at hstep
          obtain ⟨h1, h2⟩ := Prod.mk.injEq .. ▸ (Option.some.injEq .. ▸ hstep)
          subst h1 h2
          left
          refine ⟨rfl, ts ++ [c], hinv2, ?_⟩
          simp only [List.length_append, List.length_singleton]
          omega
    · exact absurd hb (by simp)

/-- C2: in every state reachable in a single combined-mode run, for
every sequence of LLM responses and any valid set iteration order, no
real retrieval tool name occurs more than once in the recorded tool
names (in particular, never more than once as a selection action). -/
theorem c2_no_tool_twice {env : Env} {q : String} {f : Filters}
    {s : ResearchState} {b : Bool} (hpick : PickValid env)
    (hrag : env.ragInit = .ok ())
    (hre : Reach env (initState q f "combined") s b) :
    ∀ r ∈ allTools, (s.intermediate_steps.map (fun a => a.tool)).count r ≤ 1 := by
  intro r hr
  have hcnt0 : (["final_answer", "final_answer_result"] : List String).count r = 0 := by
    have h2 : r = "web_search" ∨ r = "pinecone" ∨ r = "snowflake" := by
      simpa [allTools] using hr
    rcases h2 with rfl | rfl | rfl <;> decide
  rcases reach_inv hpick hrag hre with
    ⟨_, ts, ⟨_, hsteps, hnodup, _⟩, _⟩ | ⟨_, ts, hnodup, _, hsteps⟩
  · rw [hsteps, count_selResTools hr]
    exact List.nodup_iff_count_le_one.mp hnodup r
  · rw [hsteps, List.count_append, count_selResTools hr, hcnt0]
    have := List.nodup_iff_count_le_one.mp hnodup r
    omega

/-- Witness for C2: the initial combined-mode state is reachable and
satisfies the bound for a concrete tool name. -/
theorem c2_no_tool_twice_witness :
    ((initState "q" [] "combined").intermediate_steps.map
      (fun a => a.tool)).count "pinecone" ≤ 1 := by
  refine @c2_no_tool_twice constEnv _ _ _ _ ?_ rfl Reach.start "pinecone" (by decide)
  intro l hl
  cases l with
  | nil => exact absurd rfl hl
  | cons x xs => simp [constEnv]

/-- Environment whose LLM always answers `"pinecone"` and whose
backends all return non-error text. -/
def pineconeEnv : Env :=
  { llm := fun _ => "pinecone", pick := fun l => l.headD "",
    ragInit := .ok (), ragBackend := fun _ _ => .ok "rag text",
    webBackend := fun _ => .ok (.success [] [] "insight"),
    snowBackend := fun _ _ => .ok ⟨"summary", []⟩ }

theorem pineconeEnv_pickValid : PickValid pineconeEnv := by
  intro l hl
  cases l with
  | nil => exact absurd rfl hl
  | cons x xs => simp [pineconeEnv]

/-- C4 counterexample: a combined-mode run in which all three backends
return non-error text whose final history contains 8 actions, not 7 —
the claim omits one of the terminal pair (the `final_answer` selection
and the `final_answer_result` action are both recorded). -/
theorem c4_counterexample :
    ∃ s', runLoop pineconeEnv 4 (initState "q" [("2024", ["1"])] "combined") = some s' ∧
      s'.intermediate_steps.length = 8 ∧ ¬ s'.intermediate_steps.length = 7 := by
  obtain ⟨s', hrun, _, hshape⟩ :=
    @combined_run pineconeEnv "q" [("2024", ["1"])] pineconeEnv_pickValid rfl
  rcases hshape with ⟨hnorm, _⟩ | ⟨ts, _, _, hlen, hmap⟩
  · exfalso
    revert hnorm
    simp only [pineconeEnv]
    decide
  · have h1 : (s'.intermediate_steps.map (fun a => a.tool)).length =
        (selResTools ts ++ ["final_answer", "final_answer_result"]).length := by
      rw [hmap]
    rw [List.length_map, List.length_append, selResTools_length, hlen] at h1
    have hlen8 : s'.intermediate_steps.length = 8 := by simpa using h1
    exact ⟨s', hrun, hlen8, by omega⟩

/-- C4 (amended): in every combined-mode run whose first oracle
decision selects a real tool (in particular, whenever all three
backends are consulted), the final history contains exactly 8 actions:
3 selection actions with pairwise-distinct real tool names, the 3
matching result actions, the `final_answer` selection, and the
terminal `final_answer_result` — regardless of whether the backends
return errors in-band. -/
theorem c4_amended_history_shape {env : Env} (q : String) (f : Filters)
    (hpick : PickValid env) (hrag : env.ragInit = .ok ())
    (hfirst : normalizeTool (pyLower (pyStrip (env.llm (firstToolPrompt q)))) ≠
      "final_answer") :
    ∃ s' ts, runLoop env 4 (initState q f "combined") = some s' ∧
      ts.Nodup ∧ (∀ t ∈ ts, t ∈ allTools) ∧ ts.length = 3 ∧
      s'.intermediate_steps.map (fun a => a.tool) =
        selResTools ts ++ ["final_answer", "final_answer_result"] ∧
      s'.intermediate_steps.length = 8 := by
  obtain ⟨s', hrun, _, hshape⟩ := combined_run q f hpick hrag
  rcases hshape with ⟨hnorm, _⟩ | ⟨ts, hnodup, hsub, hlen, hmap⟩
  · exact absurd hnorm hfirst
  · refine ⟨s', ts, hrun, hnodup, hsub, hlen, hmap, ?_⟩
    have h1 : (s'.intermediate_steps.map (fun a => a.tool)).length =
        (selResTools ts ++ ["final_answer", "final_answer_result"]).length := by
      rw [hmap]
    rw [List.length_map, List.length_append, selResTools_length, hlen] at h1
    simpa using h1

/-- Witness for C4 (amended) at the concrete all-ok environment. -/
theorem c4_amended_history_shape_witness :
    ∃ s' ts, runLoop pineconeEnv 4 (initState "q" [] "combined") = some s' ∧
      ts.Nodup ∧ (∀ t ∈ ts, t ∈ allTools) ∧ ts.length = 3 ∧
      s'.intermediate_steps.map (fun a => a.tool) =
        selResTools ts ++ ["final_answer", "final_answer_result"] ∧
      s'.intermediate_steps.length = 8 := by
  refine c4_amended_history_shape "q" [] pineconeEnv_pickValid rfl ?_
  simp only [pineconeEnv]
  decide

theorem unusedTools_ne_nil_of_lt {s : ResearchState}
    (hlt : (usedRealTools s).length < 3) : unusedTools s ≠ [] := by
  intro hnil
  unfold unusedTools at hnil
  rw [List.filter_eq_nil_iff] at hnil
  have hfull : usedRealTools s = allTools := by
    have hsub : ∀ t ∈ allTools, t ∈ usedRealTools s := by
      intro t ht
      have := hnil t ht
      simpa using this
    have hsub2 : usedRealTools s = allTools.filter
        (fun t => (usedTools s).contains t) := rfl
    rw [hsub2, List.filter_eq_self]
    intro t ht
    have := hsub t ht
    rw [hsub2] at this
    simpa using (List.mem_filter.mp this).2
  rw [hfull] at hlt
  simp [allTools] at hlt

/-- C3 (amended): in combined mode with `0 < |used| < 3`, the oracle
tests the *raw* stripped lowercased response for membership in
`unused` **before** normalizing it; the fallback to a set-order member
fires exactly when the raw response is not itself an unused tool name.
When the raw response is literally an unused tool name it is selected
(normalization is the identity on tool names); otherwise the set-order
member is selected, even when the normalization of the raw response
lies in the unused set. -/
theorem c3_raw_membership_fallback (env : Env) (s : ResearchState)
    (hpick : PickValid env) (hmode : s.mode = "combined")
    (hne : usedTools s ≠ []) (hlt : (usedRealTools s).length < 3) :
    ∃ c, run_oracle env s = some (appendSel s c) ∧ c ∈ unusedTools s ∧
      ((unusedTools s).contains (rawNextChoice env s) = true →
        c = rawNextChoice env s) ∧
      ((unusedTools s).contains (rawNextChoice env s) = false →
        c = env.pick (unusedTools s)) := by
  have horacle := @run_oracle_mid env _ hmode hne hlt
  have hmemall : ∀ x ∈ unusedTools s, x ∈ allTools := by
    intro x hx
    exact (List.mem_filter.mp hx).1
  by_cases hin : (unusedTools s).contains (rawNextChoice env s)
  · rw [if_pos hin] at horacle
    have hmem : rawNextChoice env s ∈ unusedTools s := by simpa using hin
    rw [normalizeTool_of_real (hmemall _ hmem)] at horacle
    exact ⟨rawNextChoice env s, horacle, hmem, fun _ => rfl,
      fun hfalse => absurd hin (by rw [hfalse]; simp)⟩
  · rw [if_neg hin] at horacle
    have hmem : env.pick (unusedTools s) ∈ unusedTools s :=
      hpick _ (unusedTools_ne_nil_of_lt hlt)
    rw [normalizeTool_of_real (hmemall _ hmem)] at horacle
    refine ⟨env.pick (unusedTools s), horacle, hmem, ?_, fun _ => rfl⟩
    intro htrue
    exact absurd htrue (by simpa using hin)

/-- Witness for C3 (amended): a concrete mid-run combined state. -/
def midRunState : ResearchState :=
  { input := "q", chat_history := [],
    intermediate_steps := [⟨"web_search", ⟨"q", some []⟩, "sel"⟩,
      ⟨"web_search_result", ⟨"q", some []⟩, "res"⟩],
    metadata_filters := [], mode := "combined", output := none }

theorem c3_raw_membership_fallback_witness :
    ∃ c, run_oracle constEnv midRunState = some (appendSel midRunState c) ∧
      c ∈ unusedTools midRunState ∧
      ((unusedTools midRunState).contains (rawNextChoice constEnv midRunState) = true →
        c = rawNextChoice constEnv midRunState) ∧
      ((unusedTools midRunState).contains (rawNextChoice constEnv midRunState) = false →
        c = constEnv.pick (unusedTools midRunState)) := by
  refine c3_raw_membership_fallback constEnv midRunState ?_ rfl (by decide) (by decide)
  intro l hl
  cases l with
  | nil => exact absurd rfl hl
  | cons x xs => simp [constEnv]

/-- Environment whose LLM response normalizes to an unused tool
(`snowflake`) without being literally equal to it. -/
def verboseEnv : Env :=
  { constEnv with llm := fun _ => "use snowflake please" }

/-- C3 counterexample: with one tool used, a raw response whose
*normalization* (`snowflake`) is in the unused set nevertheless
triggers the fallback — membership is tested on the raw response —
and the set-order member `pinecone` is selected instead, under an
admissible set iteration order. -/
theorem c3_counterexample :
    normalizeTool (rawNextChoice verboseEnv midRunState) = "snowflake" ∧
    (unusedTools midRunState).contains
      (normalizeTool (rawNextChoice verboseEnv midRunState)) = true ∧
    (run_oracle verboseEnv midRunState).map
      (fun s' => (s'.intermediate_steps.map (fun a => a.tool)).getLast?) =
      some (some "pinecone") ∧
    ¬ (run_oracle verboseEnv midRunState).map
      (fun s' => (s'.intermediate_steps.map (fun a => a.tool)).getLast?) =
      some (some (normalizeTool (rawNextChoice verboseEnv midRunState))) := by
  refine ⟨by decide, by decide, by decide, by decide⟩

theorem isPrefixOf_append_right {p a : List Char} (h : p.isPrefixOf a = true)
    (b : List Char) : p.isPrefixOf (a ++ b) = true := by
  induction p generalizing a with
  | nil => simp
  | cons x ps ih =>
    cases a with
    | nil => simp [List.isPrefixOf] at h
    | cons c cs =>
      simp only [List.cons_append, List.isPrefixOf_cons₂_self] at h ⊢
      simp only [List.isPrefixOf] at h ⊢
      rcases Bool.and_eq_true .. ▸ h with ⟨h1, h2⟩
      rw [h1]
      simpa using ih h2

theorem strStartsWith_append {p a : String} (h : strStartsWith a p = true)
    (b : String) : strStartsWith (a ++ b) p = true := by
  unfold strStartsWith at h ⊢
  rw [String.data_append]
  exact isPrefixOf_append_right h b.data

/-- Environment whose vector-store adapter constructor
(`AgenticResearchAssistant()`) raises. -/
def ragCrashEnv : Env :=
  { constEnv with ragInit := .error "PineconeConfigurationError: API key missing" }

/-- C7 counterexample: the `rag_search` node's adapter constructor runs
*before* the try block, so its exception is not converted into an
`"Error..."` result action: the node propagates it (`none`) and the
run aborts without ever reaching `final_answer` (no fuel rescues it). -/
theorem c7_counterexample :
    rag_search ragCrashEnv (appendSel (initState "q" [] "pinecone") "pinecone") = none ∧
    runLoop ragCrashEnv 25 (initState "q" [] "pinecone") = none := by
  refine ⟨by decide, by decide⟩

/-- C7 (amended): every exception raised by a retrieval backend call
inside a node's try block — and the web agent's in-band error status —
is converted into a result-action log beginning with `"Error"` rather
than propagated, and the run still advances to `final_answer`; only an
exception of the vector-store adapter constructor, which runs before
the try block, escapes (see the counterexample). -/
theorem c7_soft_failure (env : Env) (q : String) (f : Filters) (e : String)
    (hrag : env.ragInit = .ok ()) :
    (env.ragBackend q f = .error e → ∃ s',
      runLoop env 2 (initState q f "pinecone") = some s' ∧
      (∃ a ∈ s'.intermediate_steps, a.tool = "rag_search_result" ∧
        a.log = "Error searching Pinecone: " ++ e ∧
        strStartsWith a.log "Error" = true) ∧
      (s'.intermediate_steps.map (fun a => a.tool)).getLast? =
        some "final_answer_result") ∧
    (env.webBackend q = .error e → ∃ s',
      runLoop env 2 (initState q f "web_search") = some s' ∧
      (∃ a ∈ s'.intermediate_steps, a.tool = "web_search_result" ∧
        a.log = "Error searching web: " ++ e ∧
        strStartsWith a.log "Error" = true) ∧
      (s'.intermediate_steps.map (fun a => a.tool)).getLast? =
        some "final_answer_result") ∧
    (env.webBackend q = .ok (.statusError e) → ∃ s',
      runLoop env 2 (initState q f "web_search") = some s' ∧
      (∃ a ∈ s'.intermediate_steps, a.tool = "web_search_result" ∧
        a.log = "Error in web search: " ++ e ∧
        strStartsWith a.log "Error" = true) ∧
      (s'.intermediate_steps.map (fun a => a.tool)).getLast? =
        some "final_answer_result") ∧
    (env.snowBackend q f = .error e → ∃ s',
      runLoop env 2 (initState q f "snowflake") = some s' ∧
      (∃ a ∈ s'.intermediate_steps, a.tool = "snowflake_search_result" ∧
        a.log = "Error searching Snowflake: " ++ e ∧
        strStartsWith a.log "Error" = true) ∧
      (s'.intermediate_steps.map (fun a => a.tool)).getLast? =
        some "final_answer_result") := by
  refine ⟨?_, ?_, ?_, ?_⟩
  · intro hb
    have h := @run_oracle_single env (initState q f "pinecone") (Or.inl rfl)
    rw [if_pos (show usedTools (initState q f "pinecone") = ([] : List String) from rfl)] at h
    rw [normalizeTool_of_real (show _ ∈ allTools by show "pinecone" ∈ allTools; decide)] at h
    have horacle : run_oracle env (initState q f "pinecone") =
        some (appendSel (initState q f "pinecone") "pinecone") := h
    have hnode : rag_search env (appendSel (initState q f "pinecone") "pinecone") =
        some { initState q f "pinecone" with intermediate_steps :=
          [selAction (initState q f "pinecone") "pinecone",
           ⟨"rag_search_result", ⟨q, some f⟩, "Error searching Pinecone: " ++ e⟩] } := by
      unfold rag_search appendSel
      rw [List.getLast?_concat, hrag]
      simp [selAction, initState, hb]
    have hstep1 : stepFromOracle env (initState q f "pinecone") =
        some ({ initState q f "pinecone" with intermediate_steps :=
          [selAction (initState q f "pinecone") "pinecone",
           ⟨"rag_search_result", ⟨q, some f⟩, "Error searching Pinecone: " ++ e⟩] },
          false) := by
      simp only [stepFromOracle, horacle, router_appendSel, tool_to_node]
      simp [hnode]
    obtain ⟨out, s3, hstep2, hsteps3, hout3⟩ :=
      @step_single_second env
        ({ initState q f "pinecone" with intermediate_steps :=
          [selAction (initState q f "pinecone") "pinecone",
           ⟨"rag_search_result", ⟨q, some f⟩, "Error searching Pinecone: " ++ e⟩] })
        (Or.inl rfl) (by simp)
    refine ⟨s3, ?_, ?_, ?_⟩
    · simp only [runLoop, hstep1, hstep2]
    · refine ⟨⟨"rag_search_result", ⟨q, some f⟩, "Error searching Pinecone: " ++ e⟩,
        ?_, rfl, rfl, strStartsWith_append (p := "Error") (by decide) e⟩
      rw [hsteps3]
      simp
    · rw [hsteps3]
      simp [selAction]
  · intro hb
    have h := @run_oracle_single env (initState q f "web_search")
      (Or.inr (Or.inl rfl))
    rw [if_pos (show usedTools (initState q f "web_search") = ([] : List String) from rfl)] at h
    rw [normalizeTool_of_real (show _ ∈ allTools by show "web_search" ∈ allTools; decide)] at h
    have horacle : run_oracle env (initState q f "web_search") =
        some (appendSel (initState q f "web_search") "web_search") := h
    have hnode : web_search env (appendSel (initState q f "web_search") "web_search") =
        some { initState q f "web_search" with intermediate_steps :=
          [selAction (initState q f "web_search") "web_search",
           ⟨"web_search_result", ⟨q, some f⟩, "Error searching web: " ++ e⟩] } := by
      unfold web_search appendSel
      rw [List.getLast?_concat]
      simp [selAction, initState, hb]
    have hstep1 : stepFromOracle env (initState q f "web_search") =
        some ({ initState q f "web_search" with intermediate_steps :=
          [selAction (initState q f "web_search") "web_search",
           ⟨"web_search_result", ⟨q, some f⟩, "Error searching web: " ++ e⟩] },
          false) := by
      simp only [stepFromOracle, horacle, router_appendSel, tool_to_node]
      simp [hnode]
    obtain ⟨out, s3, hstep2, hsteps3, hout3⟩ :=
      @step_single_second env
        ({ initState q f "web_search" with intermediate_steps :=
          [selAction (initState q f "web_search") "web_search",
           ⟨"web_search_result", ⟨q, some f⟩, "Error searching web: " ++ e⟩] })
        (Or.inr (Or.inl rfl)) (by simp)
    refine ⟨s3, ?_, ?_, ?_⟩
    · simp only [runLoop, hstep1, hstep2]
    · refine ⟨⟨"web_search_result", ⟨q, some f⟩, "Error searching web: " ++ e⟩,
        ?_, rfl, rfl, strStartsWith_append (p := "Error") (by decide) e⟩
      rw [hsteps3]
      simp
    · rw [hsteps3]
      simp [selAction]
  · intro hb
    have h := @run_oracle_single env (initState q f "web_search")
      (Or.inr (Or.inl rfl))
    rw [if_pos (show usedTools (initState q f "web_search") = ([] : List String) from rfl)] at h
    rw [normalizeTool_of_real (show _ ∈ allTools by show "web_search" ∈ allTools; decide)] at h
    have horacle : run_oracle env (initState q f "web_search") =
        some (appendSel (initState q f "web_search") "web_search") := h
    have hnode : web_search env (appendSel (initState q f "web_search") "web_search") =
        some { initState q f "web_search" with intermediate_steps :=
          [selAction (initState q f "web_search") "web_search",
           ⟨"web_search_result", ⟨q, some f⟩, "Error in web search: " ++ e⟩] } := by
      unfold web_search appendSel
      rw [List.getLast?_concat]
      simp [selAction, initState, hb]
    have hstep1 : stepFromOracle env (initState q f "web_search") =
        some ({ initState q f "web_search" with intermediate_steps :=
          [selAction (initState q f "web_search") "web_search",
           ⟨"web_search_result", ⟨q, some f⟩, "Error in web search: " ++ e⟩] },
          false) := by
      simp only [stepFromOracle, horacle, router_appendSel, tool_to_node]
      simp [hnode]
    obtain ⟨out, s3, hstep2, hsteps3, hout3⟩ :=
      @step_single_second env
        ({ initState q f "web_search" with intermediate_steps :=
          [selAction (initState q f "web_search") "web_search",
           ⟨"web_search_result", ⟨q, some f⟩, "Error in web search: " ++ e⟩] })
        (Or.inr (Or.inl rfl)) (by simp)
    refine ⟨s3, ?_, ?_, ?_⟩
    · simp only [runLoop, hstep1, hstep2]
    · refine ⟨⟨"web_search_result", ⟨q, some f⟩, "Error in web search: " ++ e⟩,
        ?_, rfl, rfl, strStartsWith_append (p := "Error") (by decide) e⟩
      rw [hsteps3]
      simp
    · rw [hsteps3]
      simp [selAction]
  · intro hb
    have h := @run_oracle_single env (initState q f "snowflake")
      (Or.inr (Or.inr rfl))
    rw [if_pos (show usedTools (initState q f "snowflake") = ([] : List String) from rfl)] at h
    rw [normalizeTool_of_real (show _ ∈ allTools by show "snowflake" ∈ allTools; decide)] at h
    have horacle : run_oracle env (initState q f "snowflake") =
        some (appendSel (initState q f "snowflake") "snowflake") := h
    have hnode : snowflake_search env (appendSel (initState q f "snowflake") "snowflake") =
        some { initState q f "snowflake" with intermediate_steps :=
          [selAction (initState q f "snowflake") "snowflake",
           ⟨"snowflake_search_result", ⟨q, some f⟩, "Error searching Snowflake: " ++ e⟩] } := by
      unfold snowflake_search appendSel
      rw [List.getLast?_concat]
      simp [selAction, initState, hb]
    have hstep1 : stepFromOracle env (initState q f "snowflake") =
        some ({ initState q f "snowflake" with intermediate_steps :=
          [selAction (initState q f "snowflake") "snowflake",
           ⟨"snowflake_search_result", ⟨q, some f⟩, "Error searching Snowflake: " ++ e⟩] },
          false) := by
      simp only [stepFromOracle, horacle, router_appendSel, tool_to_node]
      simp [hnode]
    obtain ⟨out, s3, hstep2, hsteps3, hout3⟩ :=
      @step_single_second env
        ({ initState q f "snowflake" with intermediate_steps :=
          [selAction (initState q f "snowflake") "snowflake",
           ⟨"snowflake_search_result", ⟨q, some f⟩, "Error searching Snowflake: " ++ e⟩] })
        (Or.inr (Or.inr rfl)) (by simp)
    refine ⟨s3, ?_, ?_, ?_⟩
    · simp only [runLoop, hstep1, hstep2]
    · refine ⟨⟨"snowflake_search_result", ⟨q, some f⟩, "Error searching Snowflake: " ++ e⟩,
        ?_, rfl, rfl, strStartsWith_append (p := "Error") (by decide) e⟩
      rw [hsteps3]
      simp
    · rw [hsteps3]
      simp [selAction]

/-- Environment whose backends all raise inside the nodes. -/
def throwingEnv : Env :=
  { llm := fun _ => "", pick := fun l => l.headD "", ragInit := .ok (),
    ragBackend := fun _ _ => .error "boom", webBackend := fun _ => .error "boom",
    snowBackend := fun _ _ => .error "boom" }

/-- Witness for C7 (amended) with concrete throwing backends. -/
theorem c7_soft_failure_witness :
    ∃ s', runLoop throwingEnv 2 (initState "q" [] "web_search") = some s' ∧
      (∃ a ∈ s'.intermediate_steps, a.tool = "web_search_result" ∧
        a.log = "Error searching web: " ++ "boom" ∧
        strStartsWith a.log "Error" = true) ∧
      (s'.intermediate_steps.map (fun a => a.tool)).getLast? =
        some "final_answer_result" :=
  (c7_soft_failure throwingEnv "q" [] "boom" rfl).2.1 rfl

theorem getLast?_map_getD_cons {α β : Type} (f : α → β) (a : α) (l : List α)
    (d : β) :
    (((a :: l).getLast?).map f).getD d = ((l.getLast?).map f).getD (f a) := by
  cases l with
  | nil => rfl
  | cons b t =>
    rw [List.getLast?_cons_cons]
    cases h : (b :: t).getLast? with
    | none => exact absurd (List.getLast?_eq_none_iff.mp h) (by simp)
    | some x => simp

/-- The processing applied to a Snowflake result log by the scanning
loop of `generate_final_answer`: text before the first
`"## Visualizations"` sentinel when present, else the full log. -/
def snowText (log : String) : String :=
  if strContains log "## Visualizations" then
    (pySplit log "## Visualizations").headD ""
  else log

theorem scanStep_ragSlot (acc : ScanAcc) (a : AgentAction) :
    (scanStep acc a).rag =
      if a.tool = "rag_search_result" then a.log else acc.rag := by
  simp only [scanStep]
  split_ifs <;> simp_all

theorem scanStep_webSlot (acc : ScanAcc) (a : AgentAction) :
    (scanStep acc a).web =
      if a.tool = "web_search_result" then a.log else acc.web := by
  simp only [scanStep]
  split_ifs <;> simp_all

theorem scanStep_snowSlot (acc : ScanAcc) (a : AgentAction) :
    (scanStep acc a).snow =
      if a.tool = "snowflake_search_result" then snowText a.log
      else acc.snow := by
  simp only [scanStep, snowText]
  split_ifs <;> simp_all

theorem scanFold_rag (steps : List AgentAction) : ∀ acc : ScanAcc,
    (List.foldl scanStep acc steps).rag =
      (((steps.filter (fun a => a.tool = "rag_search_result")).getLast?).map
        (fun a => a.log)).getD acc.rag := by
  induction steps with
  | nil => intro acc; rfl
  | cons a rest ih =>
    intro acc
    rw [List.foldl_cons, ih]
    by_cases h : a.tool = "rag_search_result"
    · rw [List.filter_cons_of_pos (by simpa using h), getLast?_map_getD_cons]
      rw [scanStep_ragSlot, if_pos h]
    · rw [List.filter_cons_of_neg (by simpa using h)]
      rw [scanStep_ragSlot, if_neg h]

theorem scanFold_web (steps : List AgentAction) : ∀ acc : ScanAcc,
    (List.foldl scanStep acc steps).web =
      (((steps.filter (fun a => a.tool = "web_search_result")).getLast?).map
        (fun a => a.log)).getD acc.web := by
  induction steps with
  | nil => intro acc; rfl
  | cons a rest ih =>
    intro acc
    rw [List.foldl_cons, ih]
    by_cases h : a.tool = "web_search_result"
    · rw [List.filter_cons_of_pos (by simpa using h), getLast?_map_getD_cons]
      rw [scanStep_webSlot, if_pos h]
    · rw [List.filter_cons_of_neg (by simpa using h)]
      rw [scanStep_webSlot, if_neg h]

theorem scanFold_snow (steps : List AgentAction) : ∀ acc : ScanAcc,
    (List.foldl scanStep acc steps).snow =
      (((steps.filter (fun a => a.tool = "snowflake_search_result")).getLast?).map
        (fun a => snowText a.log)).getD acc.snow := by
  induction steps with
  | nil => intro acc; rfl
  | cons a rest ih =>
    intro acc
    rw [List.foldl_cons, ih]
    by_cases h : a.tool = "snowflake_search_result"
    · rw [List.filter_cons_of_pos (by simpa using h), getLast?_map_getD_cons]
      rw [scanStep_snowSlot, if_pos h]
    · rw [List.filter_cons_of_neg (by simpa using h)]
      rw [scanStep_snowSlot, if_neg h]

/-- C6 (amended): for every history, each text slot produced by the
scanning loop of `generate_final_answer` equals the (for Snowflake:
processed) log of the LAST result action of that kind — the loop
overwrites the slot on every match, so when two result actions of the
same kind are present it is the last one, not the first, whose log is
used. -/
theorem c6_last_result_wins (steps : List AgentAction) :
    (scanSteps steps).rag =
      (((steps.filter (fun a => a.tool = "rag_search_result")).getLast?).map
        (fun a => a.log)).getD "" ∧
    (scanSteps steps).web =
      (((steps.filter (fun a => a.tool = "web_search_result")).getLast?).map
        (fun a => a.log)).getD "" ∧
    (scanSteps steps).snow =
      (((steps.filter (fun a => a.tool = "snowflake_search_result")).getLast?).map
        (fun a => snowText a.log)).getD "" :=
  ⟨scanFold_rag steps _, scanFold_web steps _, scanFold_snow steps _⟩

/-- Environment whose model echoes the prompt back. -/
def echoEnv : Env :=
  { llm := fun p => p, pick := fun l => l.headD "", ragInit := .ok (),
    ragBackend := fun _ _ => .ok "", webBackend := fun _ => .error "",
    snowBackend := fun _ _ => .error "" }

/-- A history holding two `rag_search_result` actions with
distinguishable logs. -/
def twoRagState : ResearchState :=
  { input := "q", chat_history := [], metadata_filters := [],
    mode := "pinecone", output := none,
    intermediate_steps :=
      [⟨"rag_search_result", ⟨"q", none⟩, "FIRSTRAG"⟩,
       ⟨"rag_search_result", ⟨"q", none⟩, "SECONDRAG"⟩] }

set_option maxRecDepth 40000 in
/-- C6 counterexample: on a history with two rag results, the
finalizer builds its prompt from the SECOND (last) log, not the first. -/
theorem c6_counterexample :
    (generate_final_answer echoEnv twoRagState).output =
      some (pineconePrompt "q" "SECONDRAG") ∧
    (generate_final_answer echoEnv twoRagState).output ≠
      some (pineconePrompt "q" "FIRSTRAG") := by
  refine ⟨by decide, by decide⟩

/-- Certificate carried by each triple the visualization scan
produces. -/
def GoodViz (x : List Char × List Char × List Char) : Prop :=
  '\n' ∉ x.1 ∧ NoBrkt x.1 ∧ '\n' ∉ x.2.1 ∧ '\n' ∉ x.2.2 ∧ '*' ∉ x.2.2

theorem scanViz_sound : ∀ (cs : List Char) (x : List Char × List Char × List Char),
    x ∈ scanViz cs → GoodViz x := by
  intro cs
  induction cs using scanViz.induct with
  | case1 =>
    intro x hx
    rw [scanViz] at hx
    simp at hx
  | case2 rest t1 u1 cap1 r1 h ih =>
    intro x hx
    rw [scanViz] at hx
    rw [h] at hx
    rcases List.mem_cons.mp hx with hx | hx
    · obtain ⟨_, hnt, hbr, hnu, hnc, hsc⟩ := vizTitle_sound rest t1 u1 cap1 r1 h
      rw [hx]
      exact ⟨hnt, hbr, hnu, hnc, hsc⟩
    · exact ih x hx
  | case3 rest h ih =>
    intro x hx
    rw [scanViz] at hx
    rw [h] at hx
    exact ih x hx
  | case4 c rest hshape ih =>
    intro x hx
    rw [scanViz] at hx
    · exact ih x hx
    · exact hshape

theorem scanViz_skip : ∀ (pre : List Char), (∀ c ∈ pre, c ≠ '!') →
    ∀ (cs : List Char), scanViz (pre ++ cs) = scanViz cs := by
  intro pre
  induction pre with
  | nil => intro _ cs; simp
  | cons c pre' ih =>
    intro hp cs
    have hc : c ≠ '!' := hp c (by simp)
    show scanViz (c :: (pre' ++ cs)) = _
    rw [scanViz]
    · exact ih (fun d hd => hp d (by simp [hd])) cs
    · intro r1 hceq hrest
      exact hc hceq

/-- Character-level form of the rendered `- [title](url)` bullet
list. -/
def renderLinks : List (List Char × List Char) → List Char
  | [] => []
  | (t, u) :: ps =>
    '-' :: ' ' :: '[' :: (t ++ ']' :: '(' :: (u ++ ')' :: '\n' :: renderLinks ps))

/-- Character-level form of the rendered `![title](url)` blocks with
italic captions. -/
def renderViz : List (List Char × List Char × List Char) → List Char
  | [] => []
  | (t, u, cap) :: vs =>
    '!' :: '[' :: (t ++ ']' :: '(' ::
      (u ++ ')' :: '\n' :: '\n' :: '*' :: (cap ++ '*' :: '\n' :: '\n' :: renderViz vs)))

theorem sourcesSection_data : ∀ (L : List (List Char × List Char)),
    (sourcesSection (L.map
      (fun p => WebLink.mk (String.mk p.1) (String.mk p.2)))).data
      = renderLinks L := by
  intro L
  induction L with
  | nil => rfl
  | cons p ps ih =>
    rcases p with ⟨t, u⟩
    simp only [List.map_cons, sourcesSection, String.data_append, ih,
      renderLinks, List.append_assoc]
    rfl

theorem vizSection_data : ∀ (L : List (List Char × List Char × List Char)),
    (vizSection (L.map
      (fun x => VizRef.mk (String.mk x.1) (String.mk x.2.1) (String.mk x.2.2)))).data
      = renderViz L := by
  intro L
  induction L with
  | nil => rfl
  | cons x vs ih =>
    rcases x with ⟨t, u, cap⟩
    simp only [List.map_cons, vizSection, String.data_append, ih,
      renderViz, List.append_assoc]
    rfl

theorem scanLinks_render : ∀ (L : List (List Char × List Char)),
    (∀ p ∈ L, GoodLink p) → scanLinks (renderLinks L) = L := by
  intro L
  induction L with
  | nil =>
    intro _
    rw [renderLinks, scanLinks]
  | cons p ps ih =>
    intro h
    rcases p with ⟨t, u⟩
    obtain ⟨hnl, hok, hef⟩ := h (t, u) (by simp)
    have hrest : ∀ q ∈ ps, GoodLink q := fun q hq => h q (by simp [hq])
    have hcomp := linkTitle_complete t hnl hok hef ('\n' :: renderLinks ps)
    show scanLinks (['-', ' '] ++
        ('[' :: (t ++ ']' :: '(' :: (u ++ ')' :: '\n' :: renderLinks ps)))) = _
    rw [scanLinks_skip ['-', ' '] (by decide)]
    rw [scanLinks]
    split
    · next t1 u1 r1 heq =>
      rw [hcomp] at heq
      simp only [Option.some.injEq, Prod.mk.injEq] at heq
      obtain ⟨rfl, rfl, rfl⟩ := heq
      congr 1
      show scanLinks (['\n'] ++ renderLinks ps) = ps
      rw [scanLinks_skip ['\n'] (by decide)]
      exact ih hrest
    · next heq =>
      rw [hcomp] at heq
      exact absurd heq (by simp)

theorem scanViz_render : ∀ (L : List (List Char × List Char × List Char)),
    (∀ x ∈ L, GoodViz x) → scanViz (renderViz L) = L := by
  intro L
  induction L with
  | nil =>
    intro _
    rw [renderViz, scanViz]
  | cons x vs ih =>
    intro h
    rcases x with ⟨t, u, cap⟩
    obtain ⟨hnt, hbr, hnu, hnc, hsc⟩ := h (t, u, cap) (by simp)
    have hrest : ∀ y ∈ vs, GoodViz y := fun y hy => h y (by simp [hy])
    have hcomp := vizTitle_complete t hnt hbr hnu hnc hsc
      ('\n' :: '\n' :: renderViz vs)
    show scanViz ('!' :: '[' :: (t ++ ']' :: '(' ::
        (u ++ ')' :: '\n' :: '\n' :: '*' ::
          (cap ++ '*' :: '\n' :: '\n' :: renderViz vs)))) = _
    rw [scanViz]
    split
    · next t1 u1 cap1 r1 heq =>
      rw [hcomp] at heq
      simp only [Option.some.injEq, Prod.mk.injEq] at heq
      obtain ⟨rfl, rfl, rfl, rfl⟩ := heq
      congr 1
      show scanViz (['\n', '\n'] ++ renderViz vs) = vs
      rw [scanViz_skip ['\n', '\n'] (by decide)]
      exact ih hrest
    · next heq =>
      rw [hcomp] at heq
      exact absurd heq (by simp)

theorem extractWebLinks_eq (s : String) :
    extractWebLinks s = (scanLinks s.data).map
      (fun p => WebLink.mk (String.mk p.1) (String.mk p.2)) := by
  simp [extractWebLinks, linkFindAll, List.map_map]

theorem extractVizRefs_eq (s : String) :
    extractVizRefs s = (scanViz s.data).map
      (fun x => VizRef.mk (String.mk x.1) (String.mk x.2.1) (String.mk x.2.2)) := by
  simp [extractVizRefs, vizFindAll, List.map_map]

/-- The link certificate, carried over to the link dict form. -/
def GoodLinkRef (l : WebLink) : Prop :=
  '\n' ∉ l.title.data ∧ UrlOk l.url.data ∧ EarlyFail l.title.data l.url.data

/-- The visualization certificate, carried over to the dict form. -/
def GoodVizRef (v : VizRef) : Prop :=
  '\n' ∉ v.title.data ∧ NoBrkt v.title.data ∧ '\n' ∉ v.url.data ∧
    '\n' ∉ v.caption.data ∧ '*' ∉ v.caption.data

theorem extractWebLinks_good (s : String) :
    ∀ l ∈ extractWebLinks s, GoodLinkRef l := by
  intro l hl
  rw [extractWebLinks_eq] at hl
  obtain ⟨p, hp, rfl⟩ := List.mem_map.mp hl
  exact scanLinks_sound s.data p hp

theorem extractVizRefs_good (s : String) :
    ∀ v ∈ extractVizRefs s, GoodVizRef v := by
  intro v hv
  rw [extractVizRefs_eq] at hv
  obtain ⟨x, hx, rfl⟩ := List.mem_map.mp hv
  exact scanViz_sound s.data x hx

theorem map_mk_data_links (ls : List WebLink) :
    (ls.map (fun l => (l.title.data, l.url.data))).map
      (fun p => WebLink.mk (String.mk p.1) (String.mk p.2)) = ls := by
  induction ls with
  | nil => rfl
  | cons a t ih => simpa using ih

theorem map_mk_data_vizs (vs : List VizRef) :
    (vs.map (fun v => (v.title.data, v.url.data, v.caption.data))).map
      (fun x => VizRef.mk (String.mk x.1) (String.mk x.2.1) (String.mk x.2.2)) = vs := by
  induction vs with
  | nil => rfl
  | cons a t ih => simpa using ih

theorem scan_sourcesSection (ls : List WebLink)
    (h : ∀ l ∈ ls, GoodLinkRef l) :
    extractWebLinks ("\n\n## Sources and References\n\n" ++
      sourcesSection ls) = ls := by
  have hGL : ∀ p ∈ ls.map (fun l => (l.title.data, l.url.data)), GoodLink p := by
    intro p hp
    obtain ⟨l, hl, rfl⟩ := List.mem_map.mp hp
    exact h l hl
  rw [extractWebLinks_eq, String.data_append]
  rw [show sourcesSection ls = sourcesSection
      ((ls.map (fun l => (l.title.data, l.url.data))).map
        (fun p => WebLink.mk (String.mk p.1) (String.mk p.2)))
    from by rw [map_mk_data_links]]
  rw [sourcesSection_data]
  rw [scanLinks_skip ("\n\n## Sources and References\n\n".data) (by decide)]
  rw [scanLinks_render _ hGL, map_mk_data_links]

theorem scan_vizSection (vs : List VizRef)
    (h : ∀ v ∈ vs, GoodVizRef v) :
    extractVizRefs ("\n\n## Visualizations\n\n" ++ vizSection vs) = vs := by
  have hGL : ∀ x ∈ vs.map (fun v => (v.title.data, v.url.data, v.caption.data)),
      GoodViz x := by
    intro x hx
    obtain ⟨v, hv, rfl⟩ := List.mem_map.mp hx
    exact h v hv
  rw [extractVizRefs_eq, String.data_append]
  rw [show vizSection vs = vizSection
      ((vs.map (fun v => (v.title.data, v.url.data, v.caption.data))).map
        (fun x => VizRef.mk (String.mk x.1) (String.mk x.2.1) (String.mk x.2.2)))
    from by rw [map_mk_data_vizs]]
  rw [vizSection_data]
  rw [scanViz_skip ("\n\n## Visualizations\n\n".data) (by decide)]
  rw [scanViz_render _ hGL, map_mk_data_vizs]

theorem scanStep_links_good (acc : ScanAcc) (a : AgentAction)
    (h : ∀ l ∈ acc.links, GoodLinkRef l) :
    ∀ l ∈ (scanStep acc a).links, GoodLinkRef l := by
  simp only [scanStep]
  split_ifs with h1 h2 h3 h4
  · exact h
  · intro l hl
    rcases List.mem_append.mp hl with hl | hl
    · exact h l hl
    · exact extractWebLinks_good _ l hl
  · exact h
  · exact h
  · exact h

theorem scanStep_vizs_good (acc : ScanAcc) (a : AgentAction)
    (h : ∀ v ∈ acc.vizs, GoodVizRef v) :
    ∀ v ∈ (scanStep acc a).vizs, GoodVizRef v := by
  simp only [scanStep]
  split_ifs with h1 h2 h3 h4
  · exact h
  · exact h
  · intro v hv
    rcases List.mem_append.mp hv with hv | hv
    · exact h v hv
    · exact extractVizRefs_good _ v hv
  · exact h
  · exact h

theorem scanSteps_links_good (steps : List AgentAction) :
    ∀ l ∈ (scanSteps steps).links, GoodLinkRef l := by
  suffices h : ∀ acc : ScanAcc, (∀ l ∈ acc.links, GoodLinkRef l) →
      ∀ l ∈ (List.foldl scanStep acc steps).links, GoodLinkRef l by
    exact h ⟨"", "", "", [], []⟩ (by simp)
  induction steps with
  | nil => intro acc h; simpa using h
  | cons a rest ih =>
    intro acc h
    rw [List.foldl_cons]
    exact ih _ (scanStep_links_good acc a h)

theorem scanSteps_vizs_good (steps : List AgentAction) :
    ∀ v ∈ (scanSteps steps).vizs, GoodVizRef v := by
  suffices h : ∀ acc : ScanAcc, (∀ v ∈ acc.vizs, GoodVizRef v) →
      ∀ v ∈ (List.foldl scanStep acc steps).vizs, GoodVizRef v by
    exact h ⟨"", "", "", [], []⟩ (by simp)
  induction steps with
  | nil => intro acc h; simpa using h
  | cons a rest ih =>
    intro acc h
    rw [List.foldl_cons]
    exact ih _ (scanStep_vizs_good acc a h)

/-- C9: extraction is idempotent over the finalizer's own appended
output — re-running the web-link regex on the `## Sources and
References` section that `generate_final_answer` appends for the links
it scanned from the history, and the visualization extraction on the
appended `## Visualizations` section, recovers exactly the appended
links and images, with no additional matches. -/
theorem c9_extraction_idempotent (s : ResearchState) :
    extractWebLinks ("\n\n## Sources and References\n\n" ++
        sourcesSection (scanSteps s.intermediate_steps).links) =
      (scanSteps s.intermediate_steps).links ∧
    extractVizRefs ("\n\n## Visualizations\n\n" ++
        vizSection (scanSteps s.intermediate_steps).vizs) =
      (scanSteps s.intermediate_steps).vizs :=
  ⟨scan_sourcesSection _ (scanSteps_links_good s.intermediate_steps),
   scan_vizSection _ (scanSteps_vizs_good s.intermediate_steps)⟩
